import Mathlib

set_option maxHeartbeats 1000000
set_option maxRecDepth 100000

/- Shallow embedding of the CyberRisk-Advisor backend (src/main.py).
   Strings are modelled as List Char; Python floats are modelled by their
   exact rational values (no claim depends on binary rounding); the JSON
   parser models the Python stdlib json.loads decoder on the RFC 8259
   grammar with strict strings (raw control characters rejected), the
   exact whitespace set of the scanner, rejection of trailing data, and
   lenient surrogate handling collapsed to code-point construction. -/

def btick : Char := Char.ofNat 96

/- Python str.isspace characters: the set stripped by str.strip() with no
   arguments. -/
def isPyWs (c : Char) : Bool :=
  decide ((9 ≤ c.toNat ∧ c.toNat ≤ 13) ∨ (28 ≤ c.toNat ∧ c.toNat ≤ 32) ∨
    c.toNat = 0x85 ∨ c.toNat = 0xa0 ∨ c.toNat = 0x1680 ∨
    (0x2000 ≤ c.toNat ∧ c.toNat ≤ 0x200a) ∨ c.toNat = 0x2028 ∨
    c.toNat = 0x2029 ∨ c.toNat = 0x202f ∨ c.toNat = 0x205f ∨ c.toNat = 0x3000)

/- JSON whitespace skipped by the json.loads scanner: space, tab, newline,
   carriage return. -/
def isJsonWs (c : Char) : Bool :=
  decide (c.toNat = 32 ∨ c.toNat = 9 ∨ c.toNat = 10 ∨ c.toNat = 13)

def skipWs (s : List Char) : List Char := s.dropWhile isJsonWs

def dropTrailing (p : Char → Bool) (s : List Char) : List Char :=
  (s.reverse.dropWhile p).reverse

/- Python str.strip() with no arguments. -/
def pystrip (s : List Char) : List Char :=
  dropTrailing isPyWs (s.dropWhile isPyWs)

/- Python str.strip(chars) for a character-set predicate. -/
def stripBoth (p : Char → Bool) (s : List Char) : List Char :=
  dropTrailing p (s.dropWhile p)

/- Python str.replace(pat, rep, 1): replace the first occurrence only. -/
def replaceFirst (pat rep : List Char) : List Char → List Char
  | [] => []
  | c :: rest =>
    if pat.isPrefixOf (c :: rest) then rep ++ (c :: rest).drop pat.length
    else c :: replaceFirst pat rep rest

/- JSON values as produced by json.loads: objects keep member order with
   duplicate keys resolved last-wins at lookup time (dict semantics). -/
inductive Json where
  | null
  | bool (b : Bool)
  | num (q : Rat)
  | str (s : List Char)
  | arr (elems : List Json)
  | obj (members : List (List Char × Json))

def isDigitC (c : Char) : Bool := decide (48 ≤ c.toNat ∧ c.toNat ≤ 57)

def isNumChar (c : Char) : Bool :=
  isDigitC c || c = '-' || c = '+' || c = '.' || c = 'e' || c = 'E'

def hexVal (c : Char) : Option Nat :=
  if 48 ≤ c.toNat ∧ c.toNat ≤ 57 then some (c.toNat - 48)
  else if 97 ≤ c.toNat ∧ c.toNat ≤ 102 then some (c.toNat - 87)
  else if 65 ≤ c.toNat ∧ c.toNat ≤ 70 then some (c.toNat - 55)
  else none

def escChar (c : Char) : Option Char :=
  if c = '"' then some '"'
  else if c = '\\' then some '\\'
  else if c = '/' then some '/'
  else if c = 'b' then some (Char.ofNat 8)
  else if c = 'f' then some (Char.ofNat 12)
  else if c = 'n' then some (Char.ofNat 10)
  else if c = 'r' then some (Char.ofNat 13)
  else if c = 't' then some (Char.ofNat 9)
  else none

/- py_scanstring: the input starts after the opening quote; returns the
   decoded content and the remainder after the closing quote. -/
def parseString : List Char → Option (List Char × List Char)
  | [] => none
  | c :: rest =>
    if c = '"' then some ([], rest)
    else if c = '\\' then
      match rest with
      | [] => none
      | e :: rest2 =>
        if e = 'u' then
          match rest2 with
          | h1 :: h2 :: h3 :: h4 :: rest3 =>
            match hexVal h1, hexVal h2, hexVal h3, hexVal h4 with
            | some a, some b, some c2, some d =>
              match parseString rest3 with
              | some (cs, r) =>
                some (Char.ofNat (((a * 16 + b) * 16 + c2) * 16 + d) :: cs, r)
              | none => none
            | _, _, _, _ => none
          | _ => none
        else
          match escChar e with
          | some ch =>
            match parseString rest2 with
            | some (cs, r) => some (ch :: cs, r)
            | none => none
          | none => none
    else if c.toNat < 32 then none
    else
      match parseString rest with
      | some (cs, r) => some (c :: cs, r)
      | none => none

def digitsToNat (ds : List Char) : Nat :=
  ds.foldl (fun a c => a * 10 + (c.toNat - 48)) 0

/- The rational value ±mant·10^e, built by one mkRat so that concrete
   parses reduce inside the kernel. -/
def ratOfParts (sm : Int) (e : Int) : Rat :=
  if 0 ≤ e then mkRat (sm * ((10 ^ e.toNat : Nat) : Int)) 1
  else mkRat sm (10 ^ (-e).toNat)

def numFromParts (neg : Bool) (ip fp : List Char) (en : Bool) (ep : List Char) : Rat :=
  let mant : Int := (digitsToNat (ip ++ fp) : Int)
  let e : Int := (if en then -(digitsToNat ep : Int) else (digitsToNat ep : Int)) -
    (fp.length : Int)
  ratOfParts (if neg then -mant else mant) e

/- Exponent part of the NUMBER_RE grammar, applied to the token remainder;
   the remainder must be consumed exactly. -/
def numExpPart (neg : Bool) (ip fp : List Char) : List Char → Option Rat
  | [] => some (numFromParts neg ip fp false [])
  | e :: t5 =>
    if e = 'e' ∨ e = 'E' then
      let sg : Bool × List Char :=
        match t5 with
        | c :: r => if c = '+' then (false, r) else if c = '-' then (true, r) else (false, t5)
        | [] => (false, [])
      let ep := sg.2.takeWhile isDigitC
      if ep = [] then none
      else if sg.2.drop ep.length = [] then some (numFromParts neg ip fp sg.1 ep)
      else none
    else none

/- The JSON number grammar -?(0|[1-9][0-9]*)(.[0-9]+)?([eE][+-]?[0-9]+)?
   applied to a full token. -/
def numFromToken (tok : List Char) : Option Rat :=
  let sg : Bool × List Char :=
    match tok with
    | c :: r => if c = '-' then (true, r) else (false, tok)
    | [] => (false, [])
  let ip := sg.2.takeWhile isDigitC
  if ip = [] then none
  else if 1 < ip.length ∧ ip.head? = some '0' then none
  else
    match sg.2.drop ip.length with
    | '.' :: t3 =>
      let fp := t3.takeWhile isDigitC
      if fp = [] then none else numExpPart sg.1 ip fp (t3.drop fp.length)
    | t2 => numExpPart sg.1 ip [] t2

/- Greedy number token: a maximal run of number characters, then the exact
   grammar; observationally equivalent to the scanner regex match because
   every continuation of a parse position is a non-number character. -/
def parseNumber (s : List Char) : Option (Rat × List Char) :=
  let tok := s.takeWhile isNumChar
  match numFromToken tok with
  | some q => some (q, s.drop tok.length)
  | none => none

mutual

/- One value of the json.loads scanner, with fuel; leading whitespace is
   skipped, the rest after the value is returned unconsumed. -/
def parseVal : Nat → List Char → Option (Json × List Char)
  | 0, _ => none
  | n + 1, s =>
    match skipWs s with
    | [] => none
    | c :: t =>
      if c = '"' then
        match parseString t with
        | some (cs, r) => some (Json.str cs, r)
        | none => none
      else if c = '[' then
        match skipWs t with
        | ']' :: t2 => some (Json.arr [], t2)
        | _ =>
          match parseArrItems n t with
          | some (vs, r) => some (Json.arr vs, r)
          | none => none
      else if c = '\x7b' then
        match skipWs t with
        | '\x7d' :: t2 => some (Json.obj [], t2)
        | _ =>
          match parseObjItems n t with
          | some (ms, r) => some (Json.obj ms, r)
          | none => none
      else if c = 'n' then
        if t.take 3 = ['u', 'l', 'l'] then some (Json.null, t.drop 3) else none
      else if c = 't' then
        if t.take 3 = ['r', 'u', 'e'] then some (Json.bool true, t.drop 3) else none
      else if c = 'f' then
        if t.take 4 = ['a', 'l', 's', 'e'] then some (Json.bool false, t.drop 4) else none
      else
        match parseNumber (c :: t) with
        | some (q, r) => some (Json.num q, r)
        | none => none

/- The items of a non-empty array after the opening bracket: one value, then
   either the closing bracket or a comma and further items (no trailing
   comma accepted). -/
def parseArrItems : Nat → List Char → Option (List Json × List Char)
  | 0, _ => none
  | n + 1, s =>
    match parseVal n s with
    | none => none
    | some (v, r) =>
      match skipWs r with
      | ']' :: t => some ([v], t)
      | ',' :: t =>
        match parseArrItems n t with
        | some (vs, rest) => some (v :: vs, rest)
        | none => none
      | _ => none

/- The members of a non-empty object after the opening brace: a string key,
   a colon, a value, then closing brace or comma and further members. -/
def parseObjItems : Nat → List Char → Option (List (List Char × Json) × List Char)
  | 0, _ => none
  | n + 1, s =>
    match skipWs s with
    | '"' :: t =>
      match parseString t with
      | some (k, r) =>
        match skipWs r with
        | ':' :: r2 =>
          match parseVal n r2 with
          | some (v, r3) =>
            match skipWs r3 with
            | '\x7d' :: t4 => some ([(k, v)], t4)
            | ',' :: t4 =>
              match parseObjItems n t4 with
              | some (ms, rest) => some ((k, v) :: ms, rest)
              | none => none
            | _ => none
          | none => none
        | _ => none
      | none => none
    | _ => none

end

/- json.loads: skip leading whitespace, parse one value, and require that
   only whitespace follows ("Extra data" otherwise). The fuel 2*length+2
   dominates the recursion depth of any successful scan. -/
def json_loads (s : List Char) : Option Json :=
  match parseVal (2 * s.length + 2) s with
  | some (v, rest) => if skipWs rest = [] then some v else none
  | none => none

/- Parser kinds: a value, the items of a non-empty array, or the members
   of a non-empty object. -/
inductive PK where
  | val
  | arrItems
  | objItems

inductive POut where
  | v (j : Json)
  | vs (l : List Json)
  | ms (l : List (List Char × Json))

/- Fuel-free big-step semantics of the scanner: Parses k s o r means the
   kind-k parser consumes a prefix of s, produces o, and leaves r. Each
   rule mirrors one branch of parseVal / parseArrItems / parseObjItems. -/
inductive Parses : PK → List Char → POut → List Char → Prop where
  | pstr (s t cs r : List Char) :
      skipWs s = '"' :: t → parseString t = some (cs, r) →
      Parses PK.val s (POut.v (Json.str cs)) r
  | parrEmpty (s t t2 : List Char) :
      skipWs s = '[' :: t → skipWs t = ']' :: t2 →
      Parses PK.val s (POut.v (Json.arr [])) t2
  | parr (s t r : List Char) (vs : List Json) :
      skipWs s = '[' :: t → (∀ t2, skipWs t ≠ ']' :: t2) →
      Parses PK.arrItems t (POut.vs vs) r →
      Parses PK.val s (POut.v (Json.arr vs)) r
  | pobjEmpty (s t t2 : List Char) :
      skipWs s = '\x7b' :: t → skipWs t = '\x7d' :: t2 →
      Parses PK.val s (POut.v (Json.obj [])) t2
  | pobj (s t r : List Char) (ms : List (List Char × Json)) :
      skipWs s = '\x7b' :: t → (∀ t2, skipWs t ≠ '\x7d' :: t2) →
      Parses PK.objItems t (POut.ms ms) r →
      Parses PK.val s (POut.v (Json.obj ms)) r
  | pnull (s t : List Char) :
      skipWs s = 'n' :: t → t.take 3 = ['u', 'l', 'l'] →
      Parses PK.val s (POut.v Json.null) (t.drop 3)
  | ptrue (s t : List Char) :
      skipWs s = 't' :: t → t.take 3 = ['r', 'u', 'e'] →
      Parses PK.val s (POut.v (Json.bool true)) (t.drop 3)
  | pfalse (s t : List Char) :
      skipWs s = 'f' :: t → t.take 4 = ['a', 'l', 's', 'e'] →
      Parses PK.val s (POut.v (Json.bool false)) (t.drop 4)
  | pnum (s : List Char) (c : Char) (t r : List Char) (q : Rat) :
      skipWs s = c :: t → c ≠ '"' → c ≠ '[' → c ≠ '\x7b' → c ≠ 'n' →
      c ≠ 't' → c ≠ 'f' → parseNumber (c :: t) = some (q, r) →
      Parses PK.val s (POut.v (Json.num q)) r
  | parrOne (s r t : List Char) (j : Json) :
      Parses PK.val s (POut.v j) r → skipWs r = ']' :: t →
      Parses PK.arrItems s (POut.vs [j]) t
  | parrCons (s r t rest : List Char) (j : Json) (vs : List Json) :
      Parses PK.val s (POut.v j) r → skipWs r = ',' :: t →
      Parses PK.arrItems t (POut.vs vs) rest →
      Parses PK.arrItems s (POut.vs (j :: vs)) rest
  | pobjOne (s t k r r2 r3 t4 : List Char) (j : Json) :
      skipWs s = '"' :: t → parseString t = some (k, r) →
      skipWs r = ':' :: r2 → Parses PK.val r2 (POut.v j) r3 →
      skipWs r3 = '\x7d' :: t4 →
      Parses PK.objItems s (POut.ms [(k, j)]) t4
  | pobjCons (s t k r r2 r3 t4 rest : List Char) (j : Json)
      (ms : List (List Char × Json)) :
      skipWs s = '"' :: t → parseString t = some (k, r) →
      skipWs r = ':' :: r2 → Parses PK.val r2 (POut.v j) r3 →
      skipWs r3 = ',' :: t4 → Parses PK.objItems t4 (POut.ms ms) rest →
      Parses PK.objItems s (POut.ms ((k, j) :: ms)) rest

/- Fuel that always suffices for a successful scan of the given kind. -/
def pkBound (k : PK) (s : List Char) : Nat :=
  match k with
  | PK.val => 2 * s.length + 2
  | PK.arrItems => 2 * s.length + 3
  | PK.objItems => 2 * s.length + 3

/- The fueled parser of the given kind, as a relation on its result. -/
def PRun (k : PK) (n : Nat) (s : List Char) (o : POut) (r : List Char) : Prop :=
  match k, o with
  | PK.val, POut.v v => parseVal n s = some (v, r)
  | PK.arrItems, POut.vs vs => parseArrItems n s = some (vs, r)
  | PK.objItems, POut.ms ms => parseObjItems n s = some (ms, r)
  | _, _ => False

/- ------------------------- Data Models ------------------------- -/

/- Input payload for CyberRisk Advisor (pydantic LogAnalysisRequest):
   logs required, environment and question Optional[str] defaulting to
   None. -/
structure LogAnalysisRequest where
  logs : List Char
  environment : Option (List Char)
  question : Option (List Char)

/- A single detection / finding produced by the agent. -/
structure Detection where
  title : List Char
  description : List Char
  severity : List Char
  indicators : List (List Char)

/- Structured response from CyberRisk Advisor. -/
structure LogAnalysisResponse where
  overall_risk_score : Rat
  summary : List Char
  detections : List Detection
  recommended_actions : List (List Char)
  queries_to_run : List (List Char)

structure HTTPException where
  status_code : Nat
  detail : List Char

/- How a request handler terminates: a raised HTTPException keeps its
   status and detail; any other uncaught exception (JSONDecodeError,
   KeyError, TypeError, pydantic ValidationError) is a generic internal
   server failure. -/
inductive PyError where
  | httpException (e : HTTPException)
  | internal

/- The outbound POST to the AGI API, as assembled by call_agi_agent. -/
structure AgiRequest where
  url : List Char
  authorization : List Char
  modelName : List Char
  system_content : List Char
  user_content : List Char
  temperature : Rat

/- The external service's HTTP response, as observed through httpx. -/
structure NetResponse where
  status_code : Nat
  text : List Char

/- os.getenv("AGI_BASE_URL", "https://api.agi.tech"). -/
def AGI_BASE_URL (envVal : Option (List Char)) : List Char :=
  match envVal with
  | some s => s
  | none => ("https://api.agi.tech").data

/- Python truthiness of an Optional[str]: None and the empty string are
   falsy. -/
def pyTruthy : Option (List Char) → Bool
  | none => false
  | some [] => false
  | some (_ :: _) => true

/- Python `x or default` on an Optional[str]. -/
def pyOrStr (v : Option (List Char)) (d : List Char) : List Char :=
  if pyTruthy v then v.getD [] else d

/- Last-wins association lookup: Python dicts built by json.loads keep the
   final binding of a duplicated key. -/
def objGetLast : List (List Char × Json) → List Char → Option Json
  | [], _ => none
  | p :: rest, k =>
    match objGetLast rest k with
    | some v => some v
    | none => if p.1 = k then some p.2 else none

def hasKey : List (List Char × Json) → List Char → Bool
  | [], _ => false
  | p :: rest, k => if p.1 = k then true else hasKey rest k

/- Pydantic acceptance of a JSON value for a float field (claims only
   exercise numeric payloads). -/
def coeFloat : Json → Option Rat
  | Json.num q => some q
  | _ => none

def coeStr : Json → Option (List Char)
  | Json.str s => some s
  | _ => none

/- Effectful map over a list in the Option monad, failing on the first
   failure (the semantics of a Python comprehension that can raise). -/
def listMapM {α β : Type} (f : α → Option β) : List α → Option (List β)
  | [] => some []
  | x :: rest =>
    match f x with
    | none => none
    | some y =>
      match listMapM f rest with
      | none => none
      | some ys => some (y :: ys)

def coeListStr : Json → Option (List (List Char))
  | Json.arr xs => listMapM coeStr xs
  | _ => none

/- ------------------------- Helper: AGI API ------------------------- -/

def missingKeyDetail : List Char :=
  ("AGI_API_KEY is not configured on the server. Set it in backend/.env").data

def mkAgiRequest (baseUrl apiKey system_prompt user_prompt : List Char) : AgiRequest :=
  { url := baseUrl ++ ("/v1/chat/completions").data
    authorization := ("Bearer ").data ++ apiKey
    modelName := ("agi-latest").data
    system_content := system_prompt
    user_content := user_prompt
    temperature := mkRat 2 10 }

/- data["choices"][0]["message"]["content"]: dictionary indexing raises on
   a missing key or wrong shape; json.loads downstream also needs the
   content to be a string, so every non-conforming shape is the same
   uncaught-exception outcome. -/
def extractContent : Json → Option (List Char)
  | Json.obj kvs =>
    match objGetLast kvs (("choices").data) with
    | some (Json.arr (Json.obj ckvs :: _)) =>
      match objGetLast ckvs (("message").data) with
      | some (Json.obj mkvs) =>
        match objGetLast mkvs (("content").data) with
        | some (Json.str s) => some s
        | _ => none
      | _ => none
    | _ => none
  | _ => none

/- call_agi_agent: generic wrapper for calling the AGI API. The network is
   a parameter; the list of issued AgiRequests is returned alongside the
   outcome so that absence of an outbound call is provable. A non-2xx
   status makes httpx raise_for_status throw, which becomes an
   HTTPException with the upstream status and the prefixed body text. -/
def call_agi_agent (apiKey : Option (List Char)) (baseUrl : List Char)
    (net : AgiRequest → NetResponse) (system_prompt user_prompt : List Char) :
    Except PyError (List Char) × List AgiRequest :=
  if pyTruthy apiKey = false then
    (Except.error (PyError.httpException ⟨500, missingKeyDetail⟩), [])
  else
    let request := mkAgiRequest baseUrl (apiKey.getD []) system_prompt user_prompt
    let resp := net request
    if 200 ≤ resp.status_code ∧ resp.status_code ≤ 299 then
      match (json_loads resp.text).bind extractContent with
      | some content => (Except.ok content, [request])
      | none => (Except.error PyError.internal, [request])
    else
      (Except.error (PyError.httpException
        ⟨resp.status_code, ("AGI API error: ").data ++ resp.text⟩), [request])

/- ------------------------- Core API Route ------------------------- -/

def system_prompt : List Char :=
  ("You are a senior security analyst and threat hunter assisting a SOC team. Given raw security logs, your job is to:\n- detect suspicious or malicious activity and group it into \x27detections\x27\n- assign each detection a severity: Low / Medium / High / Critical\n- compute an overall risk score from 0 to 100 for the entire log batch\n- describe the situation in a concise summary (3–5 sentences)\n- propose concrete recommended_actions for the security team\n- output follow-up queries_to_run in a SIEM (SPL, KQL, SQL-like).\n\nReturn ONLY valid JSON with this exact schema:\n\x7b\n  \"overall_risk_score\": float,\n  \"summary\": str,\n  \"detections\": [\n    \x7b\"title\": str, \"description\": str, \"severity\": str, \"indicators\": [str, ...]\x7d,\n  ],\n  \"recommended_actions\": [str, ...],\n  \"queries_to_run\": [str, ...]\n\x7d").data

/- The per-request user prompt: an indented triple-quoted f-string with
   Python `or` defaults for environment and question. -/
def user_prompt (req : LogAnalysisRequest) : List Char :=
  ("\n    ENVIRONMENT:\n    ").data ++
  pyOrStr req.environment (("Not specified").data) ++
  ("\n\n    ANALYST QUESTION / FOCUS:\n    ").data ++
  pyOrStr req.question (("General threat hunting and incident triage.").data) ++
  ("\n\n    LOGS:\n    ").data ++ req.logs ++ ("\n    ").data

/- The fallback cleanup applied when json.loads fails on the raw reply:
   strip whitespace, strip backtick fences, remove the first "json", strip
   again. -/
def fallbackClean (raw : List Char) : List Char :=
  pystrip (replaceFirst (("json").data) []
    (stripBoth (fun c => c = btick) (pystrip raw)))

/- The response-recovery step of analyze_logs: direct json.loads, then the
   single fallback parse; a second failure propagates JSONDecodeError. -/
def recoverJson (raw : List Char) : Option Json :=
  match json_loads raw with
  | some v => some v
  | none => json_loads (fallbackClean raw)

/- One detection extracted from a parsed payload entry: d.get with the
   literal defaults, then pydantic field validation; non-dict entries
   raise AttributeError. -/
def extractDetection : Json → Option Detection
  | Json.obj dkvs =>
    match coeStr ((objGetLast dkvs (("title").data)).getD (Json.str [])),
      coeStr ((objGetLast dkvs (("description").data)).getD (Json.str [])),
      coeStr ((objGetLast dkvs (("severity").data)).getD (Json.str (("Medium").data))),
      coeListStr ((objGetLast dkvs (("indicators").data)).getD (Json.arr [])) with
    | some t, some d, some sv, some inds => some ⟨t, d, sv, inds⟩
    | _, _, _, _ => none
  | _ => none

/- Building the LogAnalysisResponse from the parsed object: result.get with
   explicit defaults for every top-level field; a non-dict payload raises
   AttributeError at the first .get. -/
def analyzeBuild : Json → Option LogAnalysisResponse
  | Json.obj kvs =>
    let detsJson := (objGetLast kvs (("detections").data)).getD (Json.arr [])
    match detsJson with
    | Json.arr ds =>
      match listMapM extractDetection ds with
      | some dets =>
        match coeFloat ((objGetLast kvs (("overall_risk_score").data)).getD
            (Json.num (mkRat 0 1))),
          coeStr ((objGetLast kvs (("summary").data)).getD (Json.str [])),
          coeListStr ((objGetLast kvs (("recommended_actions").data)).getD (Json.arr [])),
          coeListStr ((objGetLast kvs (("queries_to_run").data)).getD (Json.arr [])) with
        | some score, some summ, some ra, some qr =>
          some ⟨score, summ, dets, ra, qr⟩
        | _, _, _, _ => none
      | none => none
    | _ => none
  | _ => none

/- How the /analyze_logs handler terminates. -/
inductive AnalyzeResult where
  | ok (resp : LogAnalysisResponse)
  | httpError (e : HTTPException)
  | internalError

/- The /analyze_logs endpoint after request validation: build the prompts,
   call the AGI agent, recover the JSON payload, and build the structured
   response. -/
def analyze_logs (apiKey : Option (List Char)) (baseUrl : List Char)
    (net : AgiRequest → NetResponse) (req : LogAnalysisRequest) : AnalyzeResult :=
  match call_agi_agent apiKey baseUrl net system_prompt (user_prompt req) with
  | (Except.error (PyError.httpException e), _) => AnalyzeResult.httpError e
  | (Except.error PyError.internal, _) => AnalyzeResult.internalError
  | (Except.ok raw_response, _) =>
    match recoverJson raw_response with
    | none => AnalyzeResult.internalError
    | some result =>
      match analyzeBuild result with
      | some r => AnalyzeResult.ok r
      | none => AnalyzeResult.internalError

/- ------------------------- Fixtures for concrete runs ------------------------- -/

/- The JSON wire form of a fully-populated schema object, used to state the
   identity round-trip. -/
def detectionJson (d : Detection) : Json :=
  Json.obj [(("title").data, Json.str d.title),
    (("description").data, Json.str d.description),
    (("severity").data, Json.str d.severity),
    (("indicators").data, Json.arr (d.indicators.map Json.str))]

def schemaJson (r : LogAnalysisResponse) : Json :=
  Json.obj [(("overall_risk_score").data, Json.num r.overall_risk_score),
    (("summary").data, Json.str r.summary),
    (("detections").data, Json.arr (r.detections.map detectionJson)),
    (("recommended_actions").data, Json.arr (r.recommended_actions.map Json.str)),
    (("queries_to_run").data, Json.arr (r.queries_to_run.map Json.str))]

/- The AgiRequest that /analyze_logs issues for a given configuration and
   request. -/
def issuedRequest (apiKey : Option (List Char)) (baseUrl : List Char)
    (req : LogAnalysisRequest) : AgiRequest :=
  mkAgiRequest baseUrl (apiKey.getD []) system_prompt (user_prompt req)

def jsonEscape (s : List Char) : List Char :=
  s.flatMap (fun c => if c = '"' ∨ c = '\\' then ['\\', c] else [c])

/- A chat-completions envelope whose first choice's message content is the
   given payload string. -/
def mkEnvelope (payload : List Char) : List Char :=
  ("\x7b\"choices\": [\x7b\"message\": \x7b\"content\": \"").data ++
    jsonEscape payload ++ ("\"\x7d\x7d]\x7d").data

def netReturning (code : Nat) (body : List Char) : AgiRequest → NetResponse :=
  fun _ => ⟨code, body⟩

/- The end-to-end scenario of the spec: request fields and the stubbed
   payload with overall_risk_score 72.5 (= 725/10). -/
def sampleRequest : LogAnalysisRequest :=
  ⟨("2024-01-01 failed login x5 from 10.0.0.5").data, some (("AWS").data),
    some (("brute force?").data)⟩

def sampleResponse : LogAnalysisResponse :=
  ⟨mkRat 725 10, ("Brute force suspected").data,
    [⟨("Failed logins").data, ("5 failures from 10.0.0.5").data, ("High").data,
      [("10.0.0.5").data]⟩],
    [("Block IP").data], [("index=auth failed").data]⟩

def samplePayload : List Char :=
  ("\x7b\"overall_risk_score\": 72.5, \"summary\": \"Brute force suspected\", \"detections\": [\x7b\"title\": \"Failed logins\", \"description\": \"5 failures from 10.0.0.5\", \"severity\": \"High\", \"indicators\": [\"10.0.0.5\"]\x7d], \"recommended_actions\": [\"Block IP\"], \"queries_to_run\": [\"index=auth failed\"]\x7d").data

/- ------------------------- Supporting lemmas ------------------------- -/

theorem objGetLast_of_not_hasKey (kvs : List (List Char × Json)) (k : List Char)
    (h : hasKey kvs k = false) : objGetLast kvs k = none := by
  induction kvs with
  | nil => rfl
  | cons p rest ih =>
    by_cases hk : p.1 = k
    · rw [hasKey, if_pos hk] at h
      cases h
    · rw [hasKey, if_neg hk] at h
      rw [objGetLast, ih h, if_neg hk]

theorem mapM_coeStr_map (xs : List (List Char)) :
    listMapM coeStr (xs.map Json.str) = some xs := by
  induction xs with
  | nil => rfl
  | cons x rest ih => simp [listMapM, coeStr, ih]

theorem extractDetection_detectionJson (d : Detection) :
    extractDetection (detectionJson d) = some d := by
  have h1 : objGetLast [((("title").data : List Char), Json.str d.title),
      (("description").data, Json.str d.description),
      (("severity").data, Json.str d.severity),
      (("indicators").data, Json.arr (d.indicators.map Json.str))]
      (("title").data) = some (Json.str d.title) := rfl
  have h2 : objGetLast [((("title").data : List Char), Json.str d.title),
      (("description").data, Json.str d.description),
      (("severity").data, Json.str d.severity),
      (("indicators").data, Json.arr (d.indicators.map Json.str))]
      (("description").data) = some (Json.str d.description) := rfl
  have h3 : objGetLast [((("title").data : List Char), Json.str d.title),
      (("description").data, Json.str d.description),
      (("severity").data, Json.str d.severity),
      (("indicators").data, Json.arr (d.indicators.map Json.str))]
      (("severity").data) = some (Json.str d.severity) := rfl
  have h4 : objGetLast [((("title").data : List Char), Json.str d.title),
      (("description").data, Json.str d.description),
      (("severity").data, Json.str d.severity),
      (("indicators").data, Json.arr (d.indicators.map Json.str))]
      (("indicators").data) = some (Json.arr (d.indicators.map Json.str)) := rfl
  simp only [detectionJson, extractDetection, h1, h2, h3, h4, Option.getD_some,
    coeStr, coeListStr, mapM_coeStr_map]

theorem mapM_extractDetection_map (ds : List Detection) :
    listMapM extractDetection (ds.map detectionJson) = some ds := by
  induction ds with
  | nil => rfl
  | cons d rest ih => simp [listMapM, extractDetection_detectionJson d, ih]

theorem mapM_eq_some_forall2 {α β : Type} (f : α → Option β) :
    ∀ (xs : List α) (ys : List β), listMapM f xs = some ys →
      List.Forall₂ (fun a b => f a = some b) xs ys := by
  intro xs
  induction xs with
  | nil =>
    intro ys h
    cases h
    exact List.Forall₂.nil
  | cons x rest ih =>
    intro ys h
    simp only [listMapM] at h
    cases hfx : f x with
    | none => rw [hfx] at h; cases h
    | some y =>
      rw [hfx] at h
      cases hrest : listMapM f rest with
      | none => rw [hrest] at h; cases h
      | some ys2 =>
        rw [hrest] at h
        cases h
        exact List.Forall₂.cons hfx (ih ys2 hrest)

/- Decomposition of a successful analyzeBuild run into its field
   extractions. -/
theorem analyzeBuild_eq (kvs : List (List Char × Json)) (resp : LogAnalysisResponse)
    (h : analyzeBuild (Json.obj kvs) = some resp) :
    ∃ ds, (objGetLast kvs (("detections").data)).getD (Json.arr []) = Json.arr ds ∧
      listMapM extractDetection ds = some resp.detections ∧
      coeFloat ((objGetLast kvs (("overall_risk_score").data)).getD
        (Json.num (mkRat 0 1))) = some resp.overall_risk_score ∧
      coeStr ((objGetLast kvs (("summary").data)).getD (Json.str [])) =
        some resp.summary ∧
      coeListStr ((objGetLast kvs (("recommended_actions").data)).getD (Json.arr [])) =
        some resp.recommended_actions ∧
      coeListStr ((objGetLast kvs (("queries_to_run").data)).getD (Json.arr [])) =
        some resp.queries_to_run := by
  simp only [analyzeBuild] at h
  split at h
  case _ ds heq =>
    refine ⟨ds, heq, ?_⟩
    split at h
    case _ dets hdets =>
      split at h
      case _ score summ ra qr hs hsu hra hq =>
        cases h
        exact ⟨hdets, hs, hsu, hra, hq⟩
      case _ => cases h
    case _ => cases h
  case _ => cases h

/- Decomposition of a successful extractDetection run into its field
   extractions. -/
theorem extractDetection_eq (dkvs : List (List Char × Json)) (det : Detection)
    (h : extractDetection (Json.obj dkvs) = some det) :
    coeStr ((objGetLast dkvs (("title").data)).getD (Json.str [])) =
      some det.title ∧
    coeStr ((objGetLast dkvs (("description").data)).getD (Json.str [])) =
      some det.description ∧
    coeStr ((objGetLast dkvs (("severity").data)).getD
      (Json.str (("Medium").data))) = some det.severity ∧
    coeListStr ((objGetLast dkvs (("indicators").data)).getD (Json.arr [])) =
      some det.indicators := by
  simp only [extractDetection] at h
  split at h
  next t d sv inds ht hd hsv hinds =>
    cases h
    exact ⟨ht, hd, hsv, hinds⟩
  next => cases h

/-- C3: while the external-service credential is unset, every request to the
service fails with status 500 carrying the fixed explanatory message, and
the list of outbound calls issued before that failure is empty. -/
theorem missing_credential_errors_without_network
    (baseUrl : List Char) (net : AgiRequest → NetResponse)
    (sp up : List Char) (req : LogAnalysisRequest) :
    call_agi_agent none baseUrl net sp up =
      (Except.error (PyError.httpException ⟨500, missingKeyDetail⟩), []) ∧
    analyze_logs none baseUrl net req =
      AnalyzeResult.httpError ⟨500, missingKeyDetail⟩ :=
  ⟨rfl, rfl⟩

/-- C9: an environment or question present but equal to the empty string is
treated exactly like an absent field: the user prompt substitutes the
sentinels "Not specified" and "General threat hunting and incident
triage." for any falsy value. -/
theorem empty_optional_fields_use_defaults (logs : List Char)
    (q e : Option (List Char)) :
    user_prompt ⟨logs, some [], q⟩ = user_prompt ⟨logs, none, q⟩ ∧
    user_prompt ⟨logs, e, some []⟩ = user_prompt ⟨logs, e, none⟩ ∧
    user_prompt ⟨logs, none, none⟩ =
      ("\n    ENVIRONMENT:\n    Not specified\n\n    ANALYST QUESTION / FOCUS:\n    General threat hunting and incident triage.\n\n    LOGS:\n    ").data ++
        logs ++ ("\n    ").data :=
  ⟨rfl, rfl, rfl⟩

/-- C5: a parsed payload object with detections, recommended_actions, or
queries_to_run absent yields empty sequences for the absent fields (an
absent summary yields the empty string, an absent overall_risk_score
yields 0.0) rather than failing; the fully-empty object succeeds with all
defaults. -/
theorem absent_top_level_fields_default :
    analyzeBuild (Json.obj []) = some ⟨mkRat 0 1, [], [], [], []⟩ ∧
    ∀ (kvs : List (List Char × Json)) (resp : LogAnalysisResponse),
      analyzeBuild (Json.obj kvs) = some resp →
      (hasKey kvs (("detections").data) = false → resp.detections = []) ∧
      (hasKey kvs (("recommended_actions").data) = false →
        resp.recommended_actions = []) ∧
      (hasKey kvs (("queries_to_run").data) = false → resp.queries_to_run = []) ∧
      (hasKey kvs (("summary").data) = false → resp.summary = []) ∧
      (hasKey kvs (("overall_risk_score").data) = false →
        resp.overall_risk_score = mkRat 0 1) := by
  refine ⟨rfl, ?_⟩
  intro kvs resp hb
  obtain ⟨ds, hds, hdets, hsc, hsu, hra, hqr⟩ := analyzeBuild_eq kvs resp hb
  refine ⟨?_, ?_, ?_, ?_, ?_⟩
  · intro habs
    rw [objGetLast_of_not_hasKey _ _ habs, Option.getD_none] at hds
    cases hds
    simp only [listMapM, Option.some.injEq] at hdets
    exact hdets.symm
  · intro habs
    rw [objGetLast_of_not_hasKey _ _ habs, Option.getD_none] at hra
    simp only [coeListStr, listMapM, Option.some.injEq] at hra
    exact hra.symm
  · intro habs
    rw [objGetLast_of_not_hasKey _ _ habs, Option.getD_none] at hqr
    simp only [coeListStr, listMapM, Option.some.injEq] at hqr
    exact hqr.symm
  · intro habs
    rw [objGetLast_of_not_hasKey _ _ habs, Option.getD_none] at hsu
    simp only [coeStr, Option.some.injEq] at hsu
    exact hsu.symm
  · intro habs
    rw [objGetLast_of_not_hasKey _ _ habs, Option.getD_none] at hsc
    simp only [coeFloat, Option.some.injEq] at hsc
    exact hsc.symm

theorem absent_top_level_fields_default_witness :
    analyzeBuild (Json.obj [((("summary").data : List Char),
      Json.str (("hi").data))]) =
      some ⟨mkRat 0 1, ("hi").data, [], [], []⟩ ∧
    (⟨mkRat 0 1, ("hi").data, [], [], []⟩ : LogAnalysisResponse).detections = [] ∧
    (⟨mkRat 0 1, ("hi").data, [], [], []⟩ :
      LogAnalysisResponse).overall_risk_score = mkRat 0 1 :=
  ⟨rfl, (absent_top_level_fields_default.2
      [((("summary").data : List Char), Json.str (("hi").data))]
      ⟨mkRat 0 1, ("hi").data, [], [], []⟩ rfl).1 rfl,
    (absent_top_level_fields_default.2
      [((("summary").data : List Char), Json.str (("hi").data))]
      ⟨mkRat 0 1, ("hi").data, [], [], []⟩ rfl).2.2.2.2 rfl⟩

/-- C6: detection entries lacking the severity key get the literal severity
"Medium" and entries lacking the indicators key get an empty indicator
list, and every detection of a successful response arises from the
corresponding payload entry by that extraction. -/
theorem absent_severity_defaults_medium :
    (∀ (dkvs : List (List Char × Json)) (det : Detection),
      extractDetection (Json.obj dkvs) = some det →
      (hasKey dkvs (("severity").data) = false →
        det.severity = ("Medium").data) ∧
      (hasKey dkvs (("indicators").data) = false → det.indicators = [])) ∧
    ∀ (kvs : List (List Char × Json)) (resp : LogAnalysisResponse)
      (ds : List Json),
      analyzeBuild (Json.obj kvs) = some resp →
      (objGetLast kvs (("detections").data)).getD (Json.arr []) = Json.arr ds →
      List.Forall₂ (fun d det => extractDetection d = some det) ds
        resp.detections := by
  constructor
  · intro dkvs det h
    obtain ⟨ht, hd, hsv, hinds⟩ := extractDetection_eq dkvs det h
    constructor
    · intro habs
      rw [objGetLast_of_not_hasKey _ _ habs, Option.getD_none] at hsv
      simp only [coeStr, Option.some.injEq] at hsv
      exact hsv.symm
    · intro habs
      rw [objGetLast_of_not_hasKey _ _ habs, Option.getD_none] at hinds
      simp only [coeListStr, listMapM, Option.some.injEq] at hinds
      exact hinds.symm
  · intro kvs resp ds hb hds
    obtain ⟨ds2, hds2, hdets, _⟩ := analyzeBuild_eq kvs resp hb
    rw [hds] at hds2
    cases hds2
    exact mapM_eq_some_forall2 _ _ _ hdets

theorem absent_severity_defaults_medium_witness :
    extractDetection (Json.obj [((("title").data : List Char),
      Json.str (("T").data))]) =
      some ⟨("T").data, [], ("Medium").data, []⟩ ∧
    (⟨("T").data, [], ("Medium").data, []⟩ : Detection).severity =
      ("Medium").data ∧
    (⟨("T").data, [], ("Medium").data, []⟩ : Detection).indicators = [] :=
  ⟨rfl, (absent_severity_defaults_medium.1
      [((("title").data : List Char), Json.str (("T").data))]
      ⟨("T").data, [], ("Medium").data, []⟩ rfl).1 rfl,
    (absent_severity_defaults_medium.1
      [((("title").data : List Char), Json.str (("T").data))]
      ⟨("T").data, [], ("Medium").data, []⟩ rfl).2 rfl⟩

/-- C10: detection entries lacking the title or description keys get the
empty string for those fields, and their absence alone never fails the
extraction (the empty entry extracts successfully with all defaults). -/
theorem absent_title_description_default_empty :
    extractDetection (Json.obj []) = some ⟨[], [], ("Medium").data, []⟩ ∧
    ∀ (dkvs : List (List Char × Json)) (det : Detection),
      extractDetection (Json.obj dkvs) = some det →
      (hasKey dkvs (("title").data) = false → det.title = []) ∧
      (hasKey dkvs (("description").data) = false → det.description = []) := by
  refine ⟨rfl, ?_⟩
  intro dkvs det h
  obtain ⟨ht, hd, _, _⟩ := extractDetection_eq dkvs det h
  constructor
  · intro habs
    rw [objGetLast_of_not_hasKey _ _ habs, Option.getD_none] at ht
    simp only [coeStr, Option.some.injEq] at ht
    exact ht.symm
  · intro habs
    rw [objGetLast_of_not_hasKey _ _ habs, Option.getD_none] at hd
    simp only [coeStr, Option.some.injEq] at hd
    exact hd.symm

theorem absent_title_description_default_empty_witness :
    extractDetection (Json.obj [((("severity").data : List Char),
      Json.str (("High").data))]) =
      some ⟨[], [], ("High").data, []⟩ ∧
    (⟨[], [], ("High").data, []⟩ : Detection).title = [] ∧
    (⟨[], [], ("High").data, []⟩ : Detection).description = [] :=
  ⟨rfl, (absent_title_description_default_empty.2
      [((("severity").data : List Char), Json.str (("High").data))]
      ⟨[], [], ("High").data, []⟩ rfl).1 rfl,
    (absent_title_description_default_empty.2
      [((("severity").data : List Char), Json.str (("High").data))]
      ⟨[], [], ("High").data, []⟩ rfl).2 rfl⟩

/-- C8: a numeric overall_risk_score in the parsed payload is carried into
the response unchanged; no clamping or range validation happens, so values
outside 0-100 pass through. -/
theorem risk_score_not_clamped (kvs : List (List Char × Json)) (q : Rat)
    (resp : LogAnalysisResponse)
    (hq : objGetLast kvs (("overall_risk_score").data) = some (Json.num q))
    (hb : analyzeBuild (Json.obj kvs) = some resp) :
    resp.overall_risk_score = q := by
  obtain ⟨ds, hds, hdets, hsc, _⟩ := analyzeBuild_eq kvs resp hb
  rw [hq, Option.getD_some] at hsc
  simp only [coeFloat, Option.some.injEq] at hsc
  exact hsc.symm

theorem risk_score_not_clamped_witness :
    analyzeBuild (Json.obj [((("overall_risk_score").data : List Char),
      Json.num (mkRat 250 1))]) = some ⟨mkRat 250 1, [], [], [], []⟩ ∧
    (⟨mkRat 250 1, [], [], [], []⟩ :
      LogAnalysisResponse).overall_risk_score = mkRat 250 1 ∧
    ¬(mkRat 250 1 ≤ 100) :=
  ⟨rfl, risk_score_not_clamped
      [((("overall_risk_score").data : List Char), Json.num (mkRat 250 1))]
      (mkRat 250 1) ⟨mkRat 250 1, [], [], [], []⟩ rfl rfl,
    by norm_num [Rat.mkRat_eq_div]⟩

/-- C7 counterexample: with a stubbed external service answering status 503
and body "boom", the raised error carries status 503 but its detail is the
prefixed text "AGI API error: boom", not the body text verbatim, refuting
the claim as stated. -/
theorem agi_error_detail_not_verbatim_counterexample :
    (call_agi_agent (some (("k").data)) (AGI_BASE_URL none)
        (netReturning 503 (("boom").data)) system_prompt
        (user_prompt sampleRequest)).1 =
      Except.error (PyError.httpException
        ⟨503, ("AGI API error: boom").data⟩) ∧
    ("AGI API error: boom").data ≠ ("boom").data :=
  ⟨rfl, by decide⟩

/-- C7 (amended): when the external call completes with a non-success
status, the failure propagates to the caller with the same status code the
external service returned and with an error detail equal to the fixed
prefix "AGI API error: " followed by the external response's body text. -/
theorem agi_error_propagates_with_prefixed_detail
    (apiKey : Option (List Char)) (baseUrl : List Char)
    (net : AgiRequest → NetResponse) (req : LogAnalysisRequest)
    (hkey : pyTruthy apiKey = true)
    (hbad : ¬(200 ≤ (net (issuedRequest apiKey baseUrl req)).status_code ∧
      (net (issuedRequest apiKey baseUrl req)).status_code ≤ 299)) :
    call_agi_agent apiKey baseUrl net system_prompt (user_prompt req) =
      (Except.error (PyError.httpException
        ⟨(net (issuedRequest apiKey baseUrl req)).status_code,
          ("AGI API error: ").data ++
            (net (issuedRequest apiKey baseUrl req)).text⟩),
        [issuedRequest apiKey baseUrl req]) ∧
    analyze_logs apiKey baseUrl net req =
      AnalyzeResult.httpError
        ⟨(net (issuedRequest apiKey baseUrl req)).status_code,
          ("AGI API error: ").data ++
            (net (issuedRequest apiKey baseUrl req)).text⟩ := by
  have hc : call_agi_agent apiKey baseUrl net system_prompt (user_prompt req) =
      (Except.error (PyError.httpException
        ⟨(net (issuedRequest apiKey baseUrl req)).status_code,
          ("AGI API error: ").data ++
            (net (issuedRequest apiKey baseUrl req)).text⟩),
        [issuedRequest apiKey baseUrl req]) := by
    rw [call_agi_agent, hkey]
    simp only [Bool.true_eq_false, if_false, issuedRequest]
    rw [if_neg (by simpa [issuedRequest] using hbad)]
  refine ⟨hc, ?_⟩
  rw [analyze_logs, hc]

theorem agi_error_propagates_with_prefixed_detail_witness :
    call_agi_agent (some (("k").data)) (AGI_BASE_URL none)
        (netReturning 503 (("boom").data)) system_prompt
        (user_prompt sampleRequest) =
      (Except.error (PyError.httpException
        ⟨503, ("AGI API error: boom").data⟩),
        [issuedRequest (some (("k").data)) (AGI_BASE_URL none) sampleRequest]) ∧
    analyze_logs (some (("k").data)) (AGI_BASE_URL none)
        (netReturning 503 (("boom").data)) sampleRequest =
      AnalyzeResult.httpError ⟨503, ("AGI API error: boom").data⟩ :=
  agi_error_propagates_with_prefixed_detail (some (("k").data))
    (AGI_BASE_URL none) (netReturning 503 (("boom").data)) sampleRequest
    rfl (by decide)

/- The identity round-trip at the payload-object level: building the
   response from the wire form of a fully-populated schema object changes
   no field. -/
theorem analyzeBuild_schemaJson (r : LogAnalysisResponse) :
    analyzeBuild (schemaJson r) = some r := by
  have h1 : objGetLast [((("overall_risk_score").data : List Char),
      Json.num r.overall_risk_score),
      (("summary").data, Json.str r.summary),
      (("detections").data, Json.arr (r.detections.map detectionJson)),
      (("recommended_actions").data, Json.arr (r.recommended_actions.map Json.str)),
      (("queries_to_run").data, Json.arr (r.queries_to_run.map Json.str))]
      (("detections").data) =
      some (Json.arr (r.detections.map detectionJson)) := rfl
  have h2 : objGetLast [((("overall_risk_score").data : List Char),
      Json.num r.overall_risk_score),
      (("summary").data, Json.str r.summary),
      (("detections").data, Json.arr (r.detections.map detectionJson)),
      (("recommended_actions").data, Json.arr (r.recommended_actions.map Json.str)),
      (("queries_to_run").data, Json.arr (r.queries_to_run.map Json.str))]
      (("overall_risk_score").data) = some (Json.num r.overall_risk_score) := rfl
  have h3 : objGetLast [((("overall_risk_score").data : List Char),
      Json.num r.overall_risk_score),
      (("summary").data, Json.str r.summary),
      (("detections").data, Json.arr (r.detections.map detectionJson)),
      (("recommended_actions").data, Json.arr (r.recommended_actions.map Json.str)),
      (("queries_to_run").data, Json.arr (r.queries_to_run.map Json.str))]
      (("summary").data) = some (Json.str r.summary) := rfl
  have h4 : objGetLast [((("overall_risk_score").data : List Char),
      Json.num r.overall_risk_score),
      (("summary").data, Json.str r.summary),
      (("detections").data, Json.arr (r.detections.map detectionJson)),
      (("recommended_actions").data, Json.arr (r.recommended_actions.map Json.str)),
      (("queries_to_run").data, Json.arr (r.queries_to_run.map Json.str))]
      (("recommended_actions").data) =
      some (Json.arr (r.recommended_actions.map Json.str)) := rfl
  have h5 : objGetLast [((("overall_risk_score").data : List Char),
      Json.num r.overall_risk_score),
      (("summary").data, Json.str r.summary),
      (("detections").data, Json.arr (r.detections.map detectionJson)),
      (("recommended_actions").data, Json.arr (r.recommended_actions.map Json.str)),
      (("queries_to_run").data, Json.arr (r.queries_to_run.map Json.str))]
      (("queries_to_run").data) =
      some (Json.arr (r.queries_to_run.map Json.str)) := rfl
  simp only [schemaJson, analyzeBuild, h1, h2, h3, h4, h5, Option.getD_some,
    coeFloat, coeStr, coeListStr, mapM_extractDetection_map, mapM_coeStr_map]

/- Wiring of the endpoint through a successful external call whose
   extracted content is a given raw payload string. -/
theorem analyze_logs_content (apiKey : Option (List Char)) (baseUrl : List Char)
    (net : AgiRequest → NetResponse) (req : LogAnalysisRequest)
    (raw : List Char) (hkey : pyTruthy apiKey = true)
    (hok : 200 ≤ (net (issuedRequest apiKey baseUrl req)).status_code ∧
      (net (issuedRequest apiKey baseUrl req)).status_code ≤ 299)
    (hcontent : (json_loads (net (issuedRequest apiKey baseUrl req)).text).bind
      extractContent = some raw) :
    analyze_logs apiKey baseUrl net req =
      (match recoverJson raw with
       | none => AnalyzeResult.internalError
       | some result =>
         match analyzeBuild result with
         | some r => AnalyzeResult.ok r
         | none => AnalyzeResult.internalError) := by
  simp only [issuedRequest] at hok hcontent
  simp only [analyze_logs, call_agi_agent, hkey]
  rw [if_neg (by simp), if_pos hok, hcontent]

/-- C2: for an external reply whose payload is an exact JSON object
containing all schema fields (with every detection carrying all four
sub-fields), the returned response equals the payload field for field:
an identity round-trip with no field altered. -/
theorem exact_schema_payload_round_trip
    (apiKey : Option (List Char)) (baseUrl : List Char)
    (net : AgiRequest → NetResponse) (req : LogAnalysisRequest)
    (payload : List Char) (r : LogAnalysisResponse)
    (hkey : pyTruthy apiKey = true)
    (hok : 200 ≤ (net (issuedRequest apiKey baseUrl req)).status_code ∧
      (net (issuedRequest apiKey baseUrl req)).status_code ≤ 299)
    (hcontent : (json_loads (net (issuedRequest apiKey baseUrl req)).text).bind
      extractContent = some payload)
    (hpayload : json_loads payload = some (schemaJson r)) :
    analyzeBuild (schemaJson r) = some r ∧
    analyze_logs apiKey baseUrl net req = AnalyzeResult.ok r := by
  refine ⟨analyzeBuild_schemaJson r, ?_⟩
  rw [analyze_logs_content apiKey baseUrl net req payload hkey hok hcontent,
    recoverJson, hpayload]
  simp only [analyzeBuild_schemaJson r]

theorem exact_schema_payload_round_trip_witness :
    analyzeBuild (schemaJson sampleResponse) = some sampleResponse ∧
    analyze_logs (some (("k").data)) (AGI_BASE_URL none)
      (netReturning 200 (mkEnvelope samplePayload)) sampleRequest =
      AnalyzeResult.ok sampleResponse :=
  exact_schema_payload_round_trip (some (("k").data)) (AGI_BASE_URL none)
    (netReturning 200 (mkEnvelope samplePayload)) sampleRequest
    samplePayload sampleResponse rfl (by decide) rfl rfl

/-- C4: when both the direct parse and the single fallback parse of the
reply payload fail, the response-recovery step yields nothing and the
request fails with an internal error; no partial or defaulted response is
produced and no further fallback exists to attempt. -/
theorem unparseable_payload_fails_request
    (raw : List Char) (apiKey : Option (List Char)) (baseUrl : List Char)
    (net : AgiRequest → NetResponse) (req : LogAnalysisRequest)
    (h1 : json_loads raw = none)
    (h2 : json_loads (fallbackClean raw) = none)
    (hkey : pyTruthy apiKey = true)
    (hok : 200 ≤ (net (issuedRequest apiKey baseUrl req)).status_code ∧
      (net (issuedRequest apiKey baseUrl req)).status_code ≤ 299)
    (hcontent : (json_loads (net (issuedRequest apiKey baseUrl req)).text).bind
      extractContent = some raw) :
    recoverJson raw = none ∧
    analyze_logs apiKey baseUrl net req = AnalyzeResult.internalError := by
  have hrec : recoverJson raw = none := by
    rw [recoverJson, h1, h2]
  refine ⟨hrec, ?_⟩
  rw [analyze_logs_content apiKey baseUrl net req raw hkey hok hcontent, hrec]

theorem unparseable_payload_fails_request_witness :
    recoverJson (("not json at all").data) = none ∧
    analyze_logs (some (("k").data)) (AGI_BASE_URL none)
      (netReturning 200 (mkEnvelope (("not json at all").data))) sampleRequest =
      AnalyzeResult.internalError :=
  unparseable_payload_fails_request (("not json at all").data)
    (some (("k").data)) (AGI_BASE_URL none)
    (netReturning 200 (mkEnvelope (("not json at all").data))) sampleRequest
    rfl rfl rfl (by decide) rfl

/- ------------------------- List lemmas ------------------------- -/

theorem dropWhile_append_stop (p : Char → Bool) :
    ∀ (l r : List Char) (c : Char) (t : List Char), l.dropWhile p = c :: t →
      (l ++ r).dropWhile p = c :: (t ++ r) := by
  intro l
  induction l with
  | nil => intro r c t h; cases h
  | cons x l2 ih =>
    intro r c t h
    by_cases hx : p x
    · rw [List.dropWhile_cons_of_pos hx] at h
      rw [List.cons_append, List.dropWhile_cons_of_pos hx]
      exact ih r c t h
    · rw [List.dropWhile_cons_of_neg hx] at h
      cases h
      rw [List.cons_append, List.dropWhile_cons_of_neg hx]

theorem takeWhile_append_stop (p : Char → Bool) :
    ∀ (l r : List Char) (c : Char) (t : List Char), l.dropWhile p = c :: t →
      (l ++ r).takeWhile p = l.takeWhile p := by
  intro l
  induction l with
  | nil => intro r c t h; cases h
  | cons x l2 ih =>
    intro r c t h
    by_cases hx : p x
    · rw [List.dropWhile_cons_of_pos hx] at h
      rw [List.cons_append, List.takeWhile_cons_of_pos hx,
        List.takeWhile_cons_of_pos hx, ih r c t h]
    · rw [List.cons_append, List.takeWhile_cons_of_neg hx,
        List.takeWhile_cons_of_neg hx]

theorem dropWhile_append_all (p : Char → Bool) :
    ∀ (l r : List Char), (∀ c ∈ l, p c = true) →
      (l ++ r).dropWhile p = r.dropWhile p := by
  intro l
  induction l with
  | nil => intro r _; rfl
  | cons x l2 ih =>
    intro r h
    rw [List.cons_append, List.dropWhile_cons_of_pos (h x (List.mem_cons_self x l2))]
    exact ih r (fun c hc => h c (List.mem_cons_of_mem x hc))

theorem takeWhile_append_all (p : Char → Bool) :
    ∀ (l r : List Char), (∀ c ∈ l, p c = true) →
      (l ++ r).takeWhile p = l ++ r.takeWhile p := by
  intro l
  induction l with
  | nil => intro r _; rfl
  | cons x l2 ih =>
    intro r h
    rw [List.cons_append, List.takeWhile_cons_of_pos (h x (List.mem_cons_self x l2)),
      ih r (fun c hc => h c (List.mem_cons_of_mem x hc)), List.cons_append]

theorem dropWhile_head_not (p : Char → Bool) :
    ∀ (l : List Char) (c : Char) (t : List Char), l.dropWhile p = c :: t →
      p c = false := by
  intro l
  induction l with
  | nil => intro c t h; cases h
  | cons x l2 ih =>
    intro c t h
    by_cases hx : p x
    · rw [List.dropWhile_cons_of_pos hx] at h
      exact ih c t h
    · rw [List.dropWhile_cons_of_neg hx] at h
      cases h
      exact eq_false_of_ne_true hx

theorem dropWhile_nil_all (p : Char → Bool) :
    ∀ (l : List Char), l.dropWhile p = [] → ∀ c ∈ l, p c = true := by
  intro l
  induction l with
  | nil => intro _ c hc; cases hc
  | cons x l2 ih =>
    intro h c hc
    by_cases hx : p x
    · rw [List.dropWhile_cons_of_pos hx] at h
      rcases List.mem_cons.mp hc with rfl | hc2
      · exact hx
      · exact ih h c hc2
    · rw [List.dropWhile_cons_of_neg hx] at h
      cases h

theorem dropWhile_sub_eq (p q : Char → Bool) (hpq : ∀ c, p c = true → q c = true) :
    ∀ (l : List Char) (c : Char) (t : List Char), l.dropWhile p = c :: t →
      q c = false → l.dropWhile q = c :: t := by
  intro l
  induction l with
  | nil => intro c t h _; cases h
  | cons x l2 ih =>
    intro c t h hq
    by_cases hx : p x
    · rw [List.dropWhile_cons_of_pos hx] at h
      rw [List.dropWhile_cons_of_pos (hpq x hx)]
      exact ih c t h hq
    · rw [List.dropWhile_cons_of_neg hx] at h
      cases h
      rw [List.dropWhile_cons_of_neg (by rw [hq]; exact Bool.false_ne_true)]

theorem append_cancel_r :
    ∀ (x y z : List Char), x ++ z = y ++ z → x = y := by
  intro x y z h
  have hlen : x.length = y.length := by
    have := congrArg List.length h
    simp only [List.length_append] at this
    omega
  exact (List.append_inj h hlen).1

theorem append_overlap (a r' cons r2 : List Char) (h : a ++ r' = cons ++ r2)
    (hlen : r'.length ≤ r2.length) : ∃ m, a = cons ++ m ∧ r2 = m ++ r' := by
  have hca : cons.length ≤ a.length := by
    have := congrArg List.length h
    simp only [List.length_append] at this
    omega
  have hsplit : a.take cons.length ++ (a.drop cons.length ++ r') = cons ++ r2 := by
    rw [← List.append_assoc, List.take_append_drop]
    exact h
  have hinj := List.append_inj hsplit (by rw [List.length_take]; omega)
  refine ⟨a.drop cons.length, ?_, hinj.2.symm⟩
  conv_lhs => rw [← List.take_append_drop cons.length a]
  rw [hinj.1]

theorem dropTrailing_append_all (p : Char → Bool) (a b : List Char)
    (hb : ∀ c ∈ b, p c = true) : dropTrailing p (a ++ b) = dropTrailing p a := by
  rw [dropTrailing, dropTrailing, List.reverse_append,
    dropWhile_append_all p b.reverse a.reverse
      (fun c hc => hb c (List.mem_reverse.mp hc))]

theorem dropTrailing_last_not (p : Char → Bool) (pre : List Char) (c : Char)
    (hc : p c = false) : dropTrailing p (pre ++ [c]) = pre ++ [c] := by
  rw [dropTrailing, List.reverse_append, List.reverse_singleton,
    List.singleton_append, List.dropWhile_cons_of_neg (by rw [hc]; exact
      Bool.false_ne_true)]
  simp

/- ------------------------- Character-class lemmas ------------------------- -/

theorem isJsonWs_isPyWs (c : Char) (h : isJsonWs c = true) : isPyWs c = true := by
  simp only [isJsonWs, decide_eq_true_eq] at h
  simp only [isPyWs, decide_eq_true_eq]
  omega

theorem isNumChar_not_pyws (c : Char) (h : isNumChar c = true) :
    isPyWs c = false ∧ c ≠ btick := by
  have hb : btick.toNat = 96 := rfl
  by_cases hdig : 48 ≤ c.toNat ∧ c.toNat ≤ 57
  · constructor
    · simp only [isPyWs, decide_eq_false_iff_not]
      omega
    · intro hc
      rw [hc] at hdig
      omega
  · have hd : c = '-' ∨ c = '+' ∨ c = '.' ∨ c = 'e' ∨ c = 'E' := by
      have h2 := h
      simp only [isNumChar, isDigitC, Bool.or_eq_true, decide_eq_true_eq] at h2
      tauto
    rcases hd with rfl | rfl | rfl | rfl | rfl <;> exact ⟨by decide, by decide⟩

theorem isJsonWs_not_btick (c : Char) (h : isJsonWs c = true) : c ≠ btick := by
  simp only [isJsonWs, decide_eq_true_eq] at h
  have hb : btick.toNat = 96 := rfl
  intro hc
  rw [hc] at h
  omega

/- ------------------------- parseString equations and lemmas ------------------------- -/

theorem parseString_quote (rest : List Char) :
    parseString ('"' :: rest) = some ([], rest) := by
  conv_lhs => rw [parseString.eq_def]
  simp

theorem parseString_plain (c : Char) (rest : List Char) (h1 : c ≠ '"')
    (h2 : c ≠ '\\') (h3 : ¬(c.toNat < 32)) :
    parseString (c :: rest) =
      match parseString rest with
      | some (cs, r) => some (c :: cs, r)
      | none => none := by
  conv_lhs => rw [parseString.eq_def]
  simp only [if_neg h1, if_neg h2, if_neg h3]

theorem parseString_esc (e : Char) (rest2 : List Char) (he : e ≠ 'u') :
    parseString ('\\' :: e :: rest2) =
      match escChar e with
      | some ch =>
        match parseString rest2 with
        | some (cs, r) => some (ch :: cs, r)
        | none => none
      | none => none := by
  conv_lhs => rw [parseString.eq_def]
  simp [he]

theorem parseString_esc_nil : parseString ['\\'] = none := by
  conv_lhs => rw [parseString.eq_def]
  simp

theorem parseString_u (h1 h2 h3 h4 : Char) (rest3 : List Char) :
    parseString ('\\' :: 'u' :: h1 :: h2 :: h3 :: h4 :: rest3) =
      match hexVal h1, hexVal h2, hexVal h3, hexVal h4 with
      | some a, some b, some c2, some d =>
        match parseString rest3 with
        | some (cs, r) =>
          some (Char.ofNat (((a * 16 + b) * 16 + c2) * 16 + d) :: cs, r)
        | none => none
      | _, _, _, _ => none := by
  conv_lhs => rw [parseString.eq_def]
  simp

theorem parseString_ctl (c : Char) (rest : List Char) (h1 : c ≠ '"')
    (h2 : c ≠ '\\') (h3 : c.toNat < 32) : parseString (c :: rest) = none := by
  conv_lhs => rw [parseString.eq_def]
  simp only [if_neg h1, if_neg h2, if_pos h3]

/- A successful string-token scan decomposes the input as the consumed
   part (ending in the closing quote) and the rest, and the consumed part
   scans the same way in front of any continuation. -/
theorem parseString_strong :
    ∀ (n : Nat) (s : List Char), s.length ≤ n → ∀ (cs r : List Char),
      parseString s = some (cs, r) →
      ∃ spre, s = spre ++ '"' :: r ∧
        ∀ rest2, parseString (spre ++ '"' :: rest2) = some (cs, rest2) := by
  intro n
  induction n with
  | zero =>
    intro s hs cs r h
    have : s = [] := List.length_eq_zero.mp (Nat.le_zero.mp hs)
    subst this
    cases h
  | succ m ih =>
    intro s hs cs r h
    match s, hs with
    | [], _ => cases h
    | c :: rest, hs =>
      by_cases hq : c = '"'
      · subst hq
        rw [parseString_quote] at h
        cases h
        exact ⟨[], rfl, fun rest2 => parseString_quote rest2⟩
      · by_cases hbs : c = '\\'
        · subst hbs
          match rest with
          | [] =>
            rw [parseString_esc_nil] at h
            cases h
          | e :: rest2 =>
            by_cases hu : e = 'u'
            · subst hu
              match rest2 with
              | [] => cases h
              | [x1] => cases h
              | [x1, x2] => cases h
              | [x1, x2, x3] => cases h
              | x1 :: x2 :: x3 :: x4 :: rest3 =>
                rw [parseString_u] at h
                cases hh1 : hexVal x1 with
                | none => rw [hh1] at h; cases h
                | some a =>
                cases hh2 : hexVal x2 with
                | none => rw [hh1, hh2] at h; cases h
                | some b =>
                cases hh3 : hexVal x3 with
                | none => rw [hh1, hh2, hh3] at h; cases h
                | some c2 =>
                cases hh4 : hexVal x4 with
                | none => rw [hh1, hh2, hh3, hh4] at h; cases h
                | some d =>
                rw [hh1, hh2, hh3, hh4] at h
                cases hrec : parseString rest3 with
                | none => rw [hrec] at h; cases h
                | some p =>
                  obtain ⟨cs3, r3⟩ := p
                  rw [hrec] at h
                  cases h
                  obtain ⟨spre3, hsp, hall⟩ := ih rest3
                    (by simp at hs; omega) cs3 r hrec
                  refine ⟨'\\' :: 'u' :: x1 :: x2 :: x3 :: x4 :: spre3,
                    by rw [hsp]; rfl, ?_⟩
                  intro rest4
                  rw [List.cons_append, List.cons_append, List.cons_append,
                    List.cons_append, List.cons_append, List.cons_append,
                    parseString_u, hh1, hh2, hh3, hh4, hall rest4]
            · rw [parseString_esc e rest2 hu] at h
              cases hesc : escChar e with
              | none => rw [hesc] at h; cases h
              | some ch =>
                rw [hesc] at h
                cases hrec : parseString rest2 with
                | none => rw [hrec] at h; cases h
                | some p =>
                  obtain ⟨cs2, r2⟩ := p
                  rw [hrec] at h
                  cases h
                  obtain ⟨spre2, hsp, hall⟩ := ih rest2
                    (by simp at hs; omega) cs2 r hrec
                  refine ⟨'\\' :: e :: spre2, by rw [hsp]; rfl, ?_⟩
                  intro rest4
                  rw [List.cons_append, List.cons_append,
                    parseString_esc e _ hu, hesc, hall rest4]
        · by_cases hctl : c.toNat < 32
          · rw [parseString_ctl c rest hq hbs hctl] at h
            cases h
          · rw [parseString_plain c rest hq hbs hctl] at h
            cases hrec : parseString rest with
            | none => rw [hrec] at h; cases h
            | some p =>
              obtain ⟨cs2, r2⟩ := p
              rw [hrec] at h
              cases h
              obtain ⟨spre2, hsp, hall⟩ := ih rest
                (by simp at hs; omega) cs2 r hrec
              refine ⟨c :: spre2, by rw [hsp]; rfl, ?_⟩
              intro rest4
              rw [List.cons_append, parseString_plain c _ hq hbs hctl,
                hall rest4]


/- Soundness of the fueled scanner against the big-step relation. -/
theorem parseVal_sound :
    ∀ (n : Nat),
      (∀ s v r, parseVal n s = some (v, r) → Parses PK.val s (POut.v v) r) ∧
      (∀ s vs r, parseArrItems n s = some (vs, r) →
        Parses PK.arrItems s (POut.vs vs) r) ∧
      (∀ s ms r, parseObjItems n s = some (ms, r) →
        Parses PK.objItems s (POut.ms ms) r) := by
  intro n
  induction n with
  | zero =>
    refine ⟨?_, ?_, ?_⟩
    · intro s v r h; cases h
    · intro s vs r h; cases h
    · intro s ms r h; cases h
  | succ m ih =>
    obtain ⟨ihv, iha, iho⟩ := ih
    refine ⟨?_, ?_, ?_⟩
    · intro s v r h
      rw [parseVal] at h
      repeat' split at h
      all_goals try cases h
      all_goals try subst_vars
      all_goals
        first
        | exact Parses.pstr _ _ _ _ (by assumption) (by assumption)
        | exact Parses.parrEmpty _ _ _ (by assumption) (by assumption)
        | exact Parses.pobjEmpty _ _ _ (by assumption) (by assumption)
        | exact Parses.pnull _ _ (by assumption) (by assumption)
        | exact Parses.ptrue _ _ (by assumption) (by assumption)
        | exact Parses.pfalse _ _ (by assumption) (by assumption)
        | exact Parses.pnum _ _ _ _ _ (by assumption) (by assumption)
            (by assumption) (by assumption) (by assumption) (by assumption)
            (by assumption) (by assumption)
        | exact Parses.parr _ _ _ _ (by assumption) (by assumption)
            (iha _ _ _ (by assumption))
        | exact Parses.pobj _ _ _ _ (by assumption) (by assumption)
            (iho _ _ _ (by assumption))
    · intro s vs r h
      rw [parseArrItems] at h
      repeat' split at h
      all_goals try cases h
      all_goals
        first
        | exact Parses.parrOne _ _ _ _ (ihv _ _ _ (by assumption))
            (by assumption)
        | exact Parses.parrCons _ _ _ _ _ _ (ihv _ _ _ (by assumption))
            (by assumption) (iha _ _ _ (by assumption))
    · intro s ms r h
      rw [parseObjItems] at h
      repeat' split at h
      all_goals try cases h
      all_goals
        first
        | exact Parses.pobjOne _ _ _ _ _ _ _ _ (by assumption) (by assumption)
            (by assumption) (ihv _ _ _ (by assumption)) (by assumption)
        | exact Parses.pobjCons _ _ _ _ _ _ _ _ _ _ (by assumption)
            (by assumption) (by assumption) (ihv _ _ _ (by assumption))
            (by assumption) (iho _ _ _ (by assumption))

theorem not_pyws_not_jws (c : Char) (h : isPyWs c = false) : isJsonWs c = false := by
  cases hj : isJsonWs c with
  | false => rfl
  | true => rw [isJsonWs_isPyWs c hj] at h; cases h

theorem isNumChar_class (c : Char) (h : isNumChar c = true) :
    isPyWs c = false ∧ c ≠ btick ∧ c ≠ ']' ∧ c ≠ '\x7d' := by
  have hb : btick.toNat = 96 := rfl
  have hsq : (']' : Char).toNat = 93 := rfl
  have hbr : ('\x7d' : Char).toNat = 125 := rfl
  by_cases hdig : 48 ≤ c.toNat ∧ c.toNat ≤ 57
  · refine ⟨?_, ?_, ?_, ?_⟩
    · simp only [isPyWs, decide_eq_false_iff_not]
      omega
    · intro hc; rw [hc] at hdig; omega
    · intro hc; rw [hc] at hdig; omega
    · intro hc; rw [hc] at hdig; omega
  · have hd : c = '-' ∨ c = '+' ∨ c = '.' ∨ c = 'e' ∨ c = 'E' := by
      have h2 := h
      simp only [isNumChar, isDigitC, Bool.or_eq_true, decide_eq_true_eq] at h2
      tauto
    rcases hd with rfl | rfl | rfl | rfl | rfl <;>
      exact ⟨by decide, by decide, by decide, by decide⟩

theorem skipWs_decomp (s : List Char) :
    s = s.takeWhile isJsonWs ++ skipWs s :=
  (List.takeWhile_append_dropWhile isJsonWs s).symm

theorem skipWs_put (w : List Char) (hw : ∀ c ∈ w, isJsonWs c = true) (c : Char)
    (hc : isJsonWs c = false) (X : List Char) : skipWs (w ++ c :: X) = c :: X := by
  rw [skipWs, dropWhile_append_all _ w _ hw,
    List.dropWhile_cons_of_neg (by rw [hc]; exact Bool.false_ne_true)]

theorem head_shape (w : List Char) (c : Char) (X Y : List Char) :
    (w ++ c :: X).head? = (w ++ c :: Y).head? := by
  cases w <;> simp

theorem getLast?_shape (w m : List Char) (c lc : Char) :
    (w ++ (c :: (m ++ [lc]))).getLast? = some lc := by
  rw [List.getLast?_append_of_ne_nil _ (by simp), ← List.singleton_append,
    List.getLast?_append_of_ne_nil _ (by simp), List.getLast?_concat]

theorem getLast?_some_ne_nil (l : List Char) (lc : Char)
    (h : l.getLast? = some lc) : l ≠ [] := by
  intro hn
  rw [hn] at h
  cases h

theorem getLast?_shape2 (w : List Char) (c : Char) (consI : List Char) (lc : Char)
    (h : consI.getLast? = some lc) : (w ++ (c :: consI)).getLast? = some lc := by
  rw [List.getLast?_append_of_ne_nil _ (by simp), ← List.singleton_append,
    List.getLast?_append_of_ne_nil _ (getLast?_some_ne_nil consI lc h)]
  exact h

theorem getLast?_shape3 (a w : List Char) (lc : Char) :
    (a ++ (w ++ [lc])).getLast? = some lc := by
  rw [List.getLast?_append_of_ne_nil _ (by simp), List.getLast?_concat]

theorem getLast?_shape4 (a w : List Char) (c : Char) (consI : List Char) (lc : Char)
    (h : consI.getLast? = some lc) :
    (a ++ (w ++ (c :: consI))).getLast? = some lc := by
  rw [List.getLast?_append_of_ne_nil _ (by simp), getLast?_shape2 w c consI lc h]

theorem getLast?_concat_decomp (l : List Char) (lc : Char)
    (h : l.getLast? = some lc) : ∃ pre, l = pre ++ [lc] :=
  ⟨l.dropLast, (List.dropLast_append_getLast? lc h).symm⟩

theorem drop_takeWhile_len (p : Char → Bool) :
    ∀ (l : List Char), l.drop (l.takeWhile p).length = l.dropWhile p := by
  intro l
  induction l with
  | nil => rfl
  | cons x l2 ih =>
    by_cases hx : p x
    · rw [List.takeWhile_cons_of_pos hx, List.dropWhile_cons_of_pos hx,
        List.length_cons, List.drop_succ_cons]
      exact ih
    · rw [List.takeWhile_cons_of_neg hx, List.dropWhile_cons_of_neg hx]
      rfl

theorem takeWhile_all_self (p : Char → Bool) :
    ∀ (l : List Char), (∀ c ∈ l, p c = true) → l.takeWhile p = l := by
  intro l
  induction l with
  | nil => intro _; rfl
  | cons x l2 ih =>
    intro h
    rw [List.takeWhile_cons_of_pos (h x (List.mem_cons_self x l2)),
      ih (fun c hc => h c (List.mem_cons_of_mem x hc))]

theorem skipWs_append_stop (l r : List Char) (c : Char) (t : List Char)
    (h : skipWs l = c :: t) : skipWs (l ++ r) = c :: (t ++ r) :=
  dropWhile_append_stop isJsonWs l r c t h

theorem parses_strong :
    ∀ (k : PK) (s : List Char) (o : POut) (r : List Char), Parses k s o r →
    ∃ cons ch tl lc,
      s = cons ++ r ∧
      cons.getLast? = some lc ∧ isPyWs lc = false ∧ lc ≠ btick ∧
      skipWs cons = ch :: tl ∧ isPyWs ch = false ∧ ch ≠ btick ∧
      ch ≠ ']' ∧ ch ≠ '\x7d' ∧
      ∀ rest2, (rest2 = [] ∨ rest2.head? = r.head?) →
        Parses k (cons ++ rest2) o rest2 := by
  intro k s o r h
  induction h with
  | pstr s t cs r h1 h2 =>
    obtain ⟨spre, hts, hall⟩ := parseString_strong t.length t le_rfl cs r h2
    have hwall : ∀ c2 ∈ s.takeWhile isJsonWs, isJsonWs c2 = true :=
      fun c2 hc => List.mem_takeWhile_imp hc
    have hdec : s = s.takeWhile isJsonWs ++ ('"' :: t) := by
      conv_lhs => rw [skipWs_decomp s, h1]
    refine ⟨s.takeWhile isJsonWs ++ ('"' :: (spre ++ ['"'])), '"', spre ++ ['"'],
      '"', ?_, getLast?_shape _ _ _ _, by decide, by decide,
      skipWs_put _ hwall _ (by decide) _, by decide, by decide, by decide,
      by decide, ?_⟩
    · conv_lhs => rw [hdec, hts]
      simp [List.append_assoc]
    · intro rest2 _
      have hform : (s.takeWhile isJsonWs ++ ('"' :: (spre ++ ['"']))) ++ rest2 =
          s.takeWhile isJsonWs ++ ('"' :: (spre ++ ('"' :: rest2))) := by
        simp [List.append_assoc]
      rw [hform]
      exact Parses.pstr _ _ _ _ (skipWs_put _ hwall _ (by decide) _) (hall rest2)
  | parrEmpty s t t2 h1 h2 =>
    have hwall : ∀ c2 ∈ s.takeWhile isJsonWs, isJsonWs c2 = true :=
      fun c2 hc => List.mem_takeWhile_imp hc
    have htw : ∀ c2 ∈ t.takeWhile isJsonWs, isJsonWs c2 = true :=
      fun c2 hc => List.mem_takeWhile_imp hc
    have hdec : s = s.takeWhile isJsonWs ++ ('[' :: t) := by
      conv_lhs => rw [skipWs_decomp s, h1]
    have hdec2 : t = t.takeWhile isJsonWs ++ (']' :: t2) := by
      conv_lhs => rw [skipWs_decomp t, h2]
    refine ⟨s.takeWhile isJsonWs ++ ('[' :: (t.takeWhile isJsonWs ++ [']'])),
      '[', t.takeWhile isJsonWs ++ [']'], ']', ?_, getLast?_shape _ _ _ _,
      by decide, by decide, skipWs_put _ hwall _ (by decide) _, by decide,
      by decide, by decide, by decide, ?_⟩
    · conv_lhs => rw [hdec, hdec2]
      simp [List.append_assoc]
    · intro rest2 _
      have hform : (s.takeWhile isJsonWs ++
          ('[' :: (t.takeWhile isJsonWs ++ [']']))) ++ rest2 =
          s.takeWhile isJsonWs ++
            ('[' :: (t.takeWhile isJsonWs ++ (']' :: rest2))) := by
        simp [List.append_assoc]
      rw [hform]
      exact Parses.parrEmpty _ _ _ (skipWs_put _ hwall _ (by decide) _)
        (skipWs_put _ htw _ (by decide) _)
  | pobjEmpty s t t2 h1 h2 =>
    have hwall : ∀ c2 ∈ s.takeWhile isJsonWs, isJsonWs c2 = true :=
      fun c2 hc => List.mem_takeWhile_imp hc
    have htw : ∀ c2 ∈ t.takeWhile isJsonWs, isJsonWs c2 = true :=
      fun c2 hc => List.mem_takeWhile_imp hc
    have hdec : s = s.takeWhile isJsonWs ++ ('\x7b' :: t) := by
      conv_lhs => rw [skipWs_decomp s, h1]
    have hdec2 : t = t.takeWhile isJsonWs ++ ('\x7d' :: t2) := by
      conv_lhs => rw [skipWs_decomp t, h2]
    refine ⟨s.takeWhile isJsonWs ++ ('\x7b' :: (t.takeWhile isJsonWs ++ ['\x7d'])),
      '\x7b', t.takeWhile isJsonWs ++ ['\x7d'], '\x7d', ?_, getLast?_shape _ _ _ _,
      by decide, by decide, skipWs_put _ hwall _ (by decide) _, by decide,
      by decide, by decide, by decide, ?_⟩
    · conv_lhs => rw [hdec, hdec2]
      simp [List.append_assoc]
    · intro rest2 _
      have hform : (s.takeWhile isJsonWs ++
          ('\x7b' :: (t.takeWhile isJsonWs ++ ['\x7d']))) ++ rest2 =
          s.takeWhile isJsonWs ++
            ('\x7b' :: (t.takeWhile isJsonWs ++ ('\x7d' :: rest2))) := by
        simp [List.append_assoc]
      rw [hform]
      exact Parses.pobjEmpty _ _ _ (skipWs_put _ hwall _ (by decide) _)
        (skipWs_put _ htw _ (by decide) _)
  | pnull s t h1 h2 =>
    have hwall : ∀ c2 ∈ s.takeWhile isJsonWs, isJsonWs c2 = true :=
      fun c2 hc => List.mem_takeWhile_imp hc
    have hdec : s = s.takeWhile isJsonWs ++ ('n' :: t) := by
      conv_lhs => rw [skipWs_decomp s, h1]
    have htu : t = ['u', 'l', 'l'] ++ t.drop 3 := by
      conv_lhs => rw [← List.take_append_drop 3 t, h2]
    refine ⟨s.takeWhile isJsonWs ++ ('n' :: (['u', 'l'] ++ ['l'])), 'n',
      ['u', 'l'] ++ ['l'], 'l', ?_, getLast?_shape _ _ _ _, by decide, by decide,
      skipWs_put _ hwall _ (by decide) _, by decide, by decide, by decide,
      by decide, ?_⟩
    · conv_lhs => rw [hdec, htu]
      simp [List.append_assoc]
    · intro rest2 _
      have hform : (s.takeWhile isJsonWs ++ ('n' :: (['u', 'l'] ++ ['l']))) ++
          rest2 = s.takeWhile isJsonWs ++ ('n' :: (['u', 'l', 'l'] ++ rest2)) := by
        simp [List.append_assoc]
      rw [hform]
      exact Parses.pnull _ _ (skipWs_put _ hwall _ (by decide) _) rfl
  | ptrue s t h1 h2 =>
    have hwall : ∀ c2 ∈ s.takeWhile isJsonWs, isJsonWs c2 = true :=
      fun c2 hc => List.mem_takeWhile_imp hc
    have hdec : s = s.takeWhile isJsonWs ++ ('t' :: t) := by
      conv_lhs => rw [skipWs_decomp s, h1]
    have htu : t = ['r', 'u', 'e'] ++ t.drop 3 := by
      conv_lhs => rw [← List.take_append_drop 3 t, h2]
    refine ⟨s.takeWhile isJsonWs ++ ('t' :: (['r', 'u'] ++ ['e'])), 't',
      ['r', 'u'] ++ ['e'], 'e', ?_, getLast?_shape _ _ _ _, by decide, by decide,
      skipWs_put _ hwall _ (by decide) _, by decide, by decide, by decide,
      by decide, ?_⟩
    · conv_lhs => rw [hdec, htu]
      simp [List.append_assoc]
    · intro rest2 _
      have hform : (s.takeWhile isJsonWs ++ ('t' :: (['r', 'u'] ++ ['e']))) ++
          rest2 = s.takeWhile isJsonWs ++ ('t' :: (['r', 'u', 'e'] ++ rest2)) := by
        simp [List.append_assoc]
      rw [hform]
      exact Parses.ptrue _ _ (skipWs_put _ hwall _ (by decide) _) rfl
  | pfalse s t h1 h2 =>
    have hwall : ∀ c2 ∈ s.takeWhile isJsonWs, isJsonWs c2 = true :=
      fun c2 hc => List.mem_takeWhile_imp hc
    have hdec : s = s.takeWhile isJsonWs ++ ('f' :: t) := by
      conv_lhs => rw [skipWs_decomp s, h1]
    have htu : t = ['a', 'l', 's', 'e'] ++ t.drop 4 := by
      conv_lhs => rw [← List.take_append_drop 4 t, h2]
    refine ⟨s.takeWhile isJsonWs ++ ('f' :: (['a', 'l', 's'] ++ ['e'])), 'f',
      ['a', 'l', 's'] ++ ['e'], 'e', ?_, getLast?_shape _ _ _ _, by decide,
      by decide, skipWs_put _ hwall _ (by decide) _, by decide, by decide,
      by decide, by decide, ?_⟩
    · conv_lhs => rw [hdec, htu]
      simp [List.append_assoc]
    · intro rest2 _
      have hform : (s.takeWhile isJsonWs ++ ('f' :: (['a', 'l', 's'] ++ ['e']))) ++
          rest2 =
          s.takeWhile isJsonWs ++ ('f' :: (['a', 'l', 's', 'e'] ++ rest2)) := by
        simp [List.append_assoc]
      rw [hform]
      exact Parses.pfalse _ _ (skipWs_put _ hwall _ (by decide) _) rfl
  | pnum s c t r q h1 h2 h3 h4 h5 h6 h7 h8 =>
    have hwall : ∀ c2 ∈ s.takeWhile isJsonWs, isJsonWs c2 = true :=
      fun c2 hc => List.mem_takeWhile_imp hc
    have hdec : s = s.takeWhile isJsonWs ++ (c :: t) := by
      conv_lhs => rw [skipWs_decomp s, h1]
    have h8' := h8
    simp only [parseNumber] at h8'
    cases hnt : numFromToken ((c :: t).takeWhile isNumChar) with
    | none => rw [hnt] at h8'; cases h8'
    | some q2 =>
      rw [hnt] at h8'
      cases h8'
      rw [drop_takeWhile_len isNumChar (c :: t)]
      have hne : (c :: t).takeWhile isNumChar ≠ [] := by
        intro h0
        rw [h0] at hnt
        exact Option.noConfusion hnt
      have hncc : isNumChar c = true := by
        by_cases hcc : isNumChar c = true
        · exact hcc
        · rw [List.takeWhile_cons_of_neg hcc] at hne
          exact absurd rfl hne
      have htok : (c :: t).takeWhile isNumChar = c :: t.takeWhile isNumChar :=
        List.takeWhile_cons_of_pos hncc
      have hallnc : ∀ c2 ∈ (c :: t).takeWhile isNumChar, isNumChar c2 = true :=
        fun c2 hc => List.mem_takeWhile_imp hc
      rcases List.eq_nil_or_concat' ((c :: t).takeWhile isNumChar) with
        h0 | ⟨pre0, lc, hconc⟩
      · exact absurd h0 hne
      · have hlc : isNumChar lc = true := hallnc lc (by rw [hconc]; simp)
        obtain ⟨hlcp, hlcb, _, _⟩ := isNumChar_class lc hlc
        obtain ⟨hcp, hcb, hcsq, hcbr⟩ := isNumChar_class c hncc
        have hcj : isJsonWs c = false := not_pyws_not_jws c hcp
        have hsplit : c :: t =
            (c :: t).takeWhile isNumChar ++ (c :: t).dropWhile isNumChar :=
          (List.takeWhile_append_dropWhile isNumChar (c :: t)).symm
        refine ⟨s.takeWhile isJsonWs ++ (c :: t.takeWhile isNumChar), c,
          t.takeWhile isNumChar, lc, ?_, ?_, hlcp, hlcb,
          skipWs_put _ hwall _ hcj _, hcp, hcb, hcsq, hcbr, ?_⟩
        · conv_lhs => rw [hdec, hsplit, htok]
          simp [List.append_assoc]
        · rw [show (c :: t.takeWhile isNumChar) = pre0 ++ [lc] from
            htok.symm.trans hconc]
          exact getLast?_shape3 _ _ _
        · intro rest2 hcond
          have htall : ∀ c2 ∈ c :: t.takeWhile isNumChar, isNumChar c2 = true :=
            fun c2 hc2 => hallnc c2 (htok ▸ hc2)
          have htw2 : ((c :: t.takeWhile isNumChar) ++ rest2).takeWhile
              isNumChar = c :: t.takeWhile isNumChar := by
            rcases hcond with rfl | hh
            · rw [List.append_nil]
              exact takeWhile_all_self _ _ htall
            · cases rest2 with
              | nil =>
                rw [List.append_nil]
                exact takeWhile_all_self _ _ htall
              | cons x X =>
                have hxf : isNumChar x = false := by
                  cases hrr2 : (c :: t).dropWhile isNumChar with
                  | nil => rw [hrr2] at hh; cases hh
                  | cons rx R =>
                    rw [hrr2] at hh
                    cases hh
                    exact dropWhile_head_not _ _ _ _ hrr2
                rw [takeWhile_append_all _ _ _ htall,
                  List.takeWhile_cons_of_neg (by rw [hxf]; exact
                    Bool.false_ne_true), List.append_nil]
          have hpn2 : parseNumber ((c :: t.takeWhile isNumChar) ++ rest2) =
              some (q, rest2) := by
            simp only [parseNumber]
            rw [htw2, ← htok, hnt, htok, List.drop_left]
          have hform : (s.takeWhile isJsonWs ++ (c :: t.takeWhile isNumChar)) ++
              rest2 =
              s.takeWhile isJsonWs ++ (c :: (t.takeWhile isNumChar ++ rest2)) := by
            simp [List.append_assoc]
          rw [hform]
          rw [List.cons_append] at hpn2
          exact Parses.pnum _ c _ _ q (skipWs_put _ hwall _ hcj _) h2 h3 h4 h5
            h6 h7 hpn2
  | parr s t r vs h1 h2 h3 ih =>
    obtain ⟨consI, chI, tlI, lcI, hts, hlast, hlcp, hlcb, hskI, hchp, hchb,
      hchsq, hchbr, hre⟩ := ih
    have hwall : ∀ c2 ∈ s.takeWhile isJsonWs, isJsonWs c2 = true :=
      fun c2 hc => List.mem_takeWhile_imp hc
    have hdec : s = s.takeWhile isJsonWs ++ ('[' :: t) := by
      conv_lhs => rw [skipWs_decomp s, h1]
    refine ⟨s.takeWhile isJsonWs ++ ('[' :: consI), '[', consI, lcI, ?_,
      getLast?_shape2 _ _ _ _ hlast, hlcp, hlcb,
      skipWs_put _ hwall _ (by decide) _, by decide, by decide, by decide,
      by decide, ?_⟩
    · conv_lhs => rw [hdec, hts]
      simp [List.append_assoc]
    · intro rest2 hcond
      have hform : (s.takeWhile isJsonWs ++ ('[' :: consI)) ++ rest2 =
          s.takeWhile isJsonWs ++ ('[' :: (consI ++ rest2)) := by
        simp [List.append_assoc]
      rw [hform]
      refine Parses.parr _ _ _ _ (skipWs_put _ hwall _ (by decide) _) ?_
        (hre rest2 hcond)
      intro t2 hc
      rw [skipWs_append_stop consI rest2 chI tlI hskI] at hc
      cases hc
      exact hchsq rfl
  | pobj s t r ms h1 h2 h3 ih =>
    obtain ⟨consI, chI, tlI, lcI, hts, hlast, hlcp, hlcb, hskI, hchp, hchb,
      hchsq, hchbr, hre⟩ := ih
    have hwall : ∀ c2 ∈ s.takeWhile isJsonWs, isJsonWs c2 = true :=
      fun c2 hc => List.mem_takeWhile_imp hc
    have hdec : s = s.takeWhile isJsonWs ++ ('\x7b' :: t) := by
      conv_lhs => rw [skipWs_decomp s, h1]
    refine ⟨s.takeWhile isJsonWs ++ ('\x7b' :: consI), '\x7b', consI, lcI, ?_,
      getLast?_shape2 _ _ _ _ hlast, hlcp, hlcb,
      skipWs_put _ hwall _ (by decide) _, by decide, by decide, by decide,
      by decide, ?_⟩
    · conv_lhs => rw [hdec, hts]
      simp [List.append_assoc]
    · intro rest2 hcond
      have hform : (s.takeWhile isJsonWs ++ ('\x7b' :: consI)) ++ rest2 =
          s.takeWhile isJsonWs ++ ('\x7b' :: (consI ++ rest2)) := by
        simp [List.append_assoc]
      rw [hform]
      refine Parses.pobj _ _ _ _ (skipWs_put _ hwall _ (by decide) _) ?_
        (hre rest2 hcond)
      intro t2 hc
      rw [skipWs_append_stop consI rest2 chI tlI hskI] at hc
      cases hc
      exact hchbr rfl
  | parrOne s r t j hv h2 ihv =>
    obtain ⟨consV, chV, tlV, lcV, hsr, hlastV, hlcpV, hlcbV, hskV, hchpV,
      hchbV, hchsqV, hchbrV, hreV⟩ := ihv
    have hrw : ∀ c2 ∈ r.takeWhile isJsonWs, isJsonWs c2 = true :=
      fun c2 hc => List.mem_takeWhile_imp hc
    have hrdec : r = r.takeWhile isJsonWs ++ (']' :: t) := by
      conv_lhs => rw [skipWs_decomp r, h2]
    refine ⟨consV ++ (r.takeWhile isJsonWs ++ [']']), chV,
      tlV ++ (r.takeWhile isJsonWs ++ [']']), ']', ?_,
      getLast?_shape3 _ _ _, by decide, by decide,
      skipWs_append_stop consV _ chV tlV hskV, hchpV, hchbV, hchsqV,
      hchbrV, ?_⟩
    · conv_lhs => rw [hsr, hrdec]
      simp [List.append_assoc]
    · intro rest2 _
      have hform : (consV ++ (r.takeWhile isJsonWs ++ [']'])) ++ rest2 =
          consV ++ (r.takeWhile isJsonWs ++ (']' :: rest2)) := by
        simp [List.append_assoc]
      rw [hform]
      exact Parses.parrOne _ _ _ _
        (hreV _ (Or.inr (by (conv_rhs => rw [hrdec]); exact head_shape _ _ _ _)))
        (skipWs_put _ hrw _ (by decide) _)
  | parrCons s r t rest j vs hv h2 hsub ihv ihsub =>
    obtain ⟨consV, chV, tlV, lcV, hsr, hlastV, hlcpV, hlcbV, hskV, hchpV,
      hchbV, hchsqV, hchbrV, hreV⟩ := ihv
    obtain ⟨consI, chI, tlI, lcI, hts, hlastI, hlcpI, hlcbI, hskI, hchpI,
      hchbI, hchsqI, hchbrI, hreI⟩ := ihsub
    have hrw : ∀ c2 ∈ r.takeWhile isJsonWs, isJsonWs c2 = true :=
      fun c2 hc => List.mem_takeWhile_imp hc
    have hrdec : r = r.takeWhile isJsonWs ++ (',' :: t) := by
      conv_lhs => rw [skipWs_decomp r, h2]
    refine ⟨consV ++ (r.takeWhile isJsonWs ++ (',' :: consI)), chV,
      tlV ++ (r.takeWhile isJsonWs ++ (',' :: consI)), lcI, ?_,
      getLast?_shape4 _ _ _ _ _ hlastI, hlcpI, hlcbI,
      skipWs_append_stop consV _ chV tlV hskV, hchpV, hchbV, hchsqV,
      hchbrV, ?_⟩
    · conv_lhs => rw [hsr, hrdec, hts]
      simp [List.append_assoc]
    · intro rest2 hcond
      have hform : (consV ++ (r.takeWhile isJsonWs ++ (',' :: consI))) ++ rest2 =
          consV ++ (r.takeWhile isJsonWs ++ (',' :: (consI ++ rest2))) := by
        simp [List.append_assoc]
      rw [hform]
      exact Parses.parrCons _ _ _ _ _ _
        (hreV _ (Or.inr (by (conv_rhs => rw [hrdec]); exact head_shape _ _ _ _)))
        (skipWs_put _ hrw _ (by decide) _) (hreI rest2 hcond)
  | pobjOne s t k2 r r2 r3 t4 j h1 h2 h3 hv h5 ihv =>
    obtain ⟨spre, hts, hall⟩ := parseString_strong t.length t le_rfl k2 r h2
    obtain ⟨consV, chV, tlV, lcV, hr2d, hlastV, hlcpV, hlcbV, hskV, hchpV,
      hchbV, hchsqV, hchbrV, hreV⟩ := ihv
    have hwall : ∀ c2 ∈ s.takeWhile isJsonWs, isJsonWs c2 = true :=
      fun c2 hc => List.mem_takeWhile_imp hc
    have hrw : ∀ c2 ∈ r.takeWhile isJsonWs, isJsonWs c2 = true :=
      fun c2 hc => List.mem_takeWhile_imp hc
    have hr3w : ∀ c2 ∈ r3.takeWhile isJsonWs, isJsonWs c2 = true :=
      fun c2 hc => List.mem_takeWhile_imp hc
    have hdec : s = s.takeWhile isJsonWs ++ ('"' :: t) := by
      conv_lhs => rw [skipWs_decomp s, h1]
    have hrdec : r = r.takeWhile isJsonWs ++ (':' :: r2) := by
      conv_lhs => rw [skipWs_decomp r, h3]
    have hr3dec : r3 = r3.takeWhile isJsonWs ++ ('\x7d' :: t4) := by
      conv_lhs => rw [skipWs_decomp r3, h5]
    refine ⟨s.takeWhile isJsonWs ++ ('"' :: (spre ++ ('"' :: (r.takeWhile
      isJsonWs ++ (':' :: (consV ++ (r3.takeWhile isJsonWs ++ ['\x7d']))))))),
      '"', spre ++ ('"' :: (r.takeWhile isJsonWs ++ (':' :: (consV ++
        (r3.takeWhile isJsonWs ++ ['\x7d']))))), '\x7d', ?_,
      getLast?_shape2 _ _ _ _ (getLast?_shape2 _ _ _ _
        (getLast?_shape2 _ _ _ _ (getLast?_shape3 _ _ _))),
      by decide, by decide, skipWs_put _ hwall _ (by decide) _, by decide,
      by decide, by decide, by decide, ?_⟩
    · conv_lhs => rw [hdec, hts, hrdec, hr2d, hr3dec]
      simp [List.append_assoc]
    · intro rest2 _
      have hform : (s.takeWhile isJsonWs ++ ('"' :: (spre ++ ('"' ::
          (r.takeWhile isJsonWs ++ (':' :: (consV ++ (r3.takeWhile isJsonWs ++
            ['\x7d'])))))))) ++ rest2 =
          s.takeWhile isJsonWs ++ ('"' :: (spre ++ ('"' :: (r.takeWhile
            isJsonWs ++ (':' :: (consV ++ (r3.takeWhile isJsonWs ++
              ('\x7d' :: rest2)))))))) := by
        simp [List.append_assoc]
      rw [hform]
      exact Parses.pobjOne _ _ k2 _ _ _ _ j
        (skipWs_put _ hwall _ (by decide) _) (hall _)
        (skipWs_put _ hrw _ (by decide) _)
        (hreV _ (Or.inr (by (conv_rhs => rw [hr3dec]); exact head_shape _ _ _ _)))
        (skipWs_put _ hr3w _ (by decide) _)
  | pobjCons s t k2 r r2 r3 t4 rest j ms h1 h2 h3 hv h5 hsub ihv ihsub =>
    obtain ⟨spre, hts, hall⟩ := parseString_strong t.length t le_rfl k2 r h2
    obtain ⟨consV, chV, tlV, lcV, hr2d, hlastV, hlcpV, hlcbV, hskV, hchpV,
      hchbV, hchsqV, hchbrV, hreV⟩ := ihv
    obtain ⟨consI, chI, tlI, lcI, ht4d, hlastI, hlcpI, hlcbI, hskI, hchpI,
      hchbI, hchsqI, hchbrI, hreI⟩ := ihsub
    have hwall : ∀ c2 ∈ s.takeWhile isJsonWs, isJsonWs c2 = true :=
      fun c2 hc => List.mem_takeWhile_imp hc
    have hrw : ∀ c2 ∈ r.takeWhile isJsonWs, isJsonWs c2 = true :=
      fun c2 hc => List.mem_takeWhile_imp hc
    have hr3w : ∀ c2 ∈ r3.takeWhile isJsonWs, isJsonWs c2 = true :=
      fun c2 hc => List.mem_takeWhile_imp hc
    have hdec : s = s.takeWhile isJsonWs ++ ('"' :: t) := by
      conv_lhs => rw [skipWs_decomp s, h1]
    have hrdec : r = r.takeWhile isJsonWs ++ (':' :: r2) := by
      conv_lhs => rw [skipWs_decomp r, h3]
    have hr3dec : r3 = r3.takeWhile isJsonWs ++ (',' :: t4) := by
      conv_lhs => rw [skipWs_decomp r3, h5]
    refine ⟨s.takeWhile isJsonWs ++ ('"' :: (spre ++ ('"' :: (r.takeWhile
      isJsonWs ++ (':' :: (consV ++ (r3.takeWhile isJsonWs ++
        (',' :: consI)))))))),
      '"', spre ++ ('"' :: (r.takeWhile isJsonWs ++ (':' :: (consV ++
        (r3.takeWhile isJsonWs ++ (',' :: consI)))))), lcI, ?_,
      getLast?_shape2 _ _ _ _ (getLast?_shape2 _ _ _ _
        (getLast?_shape2 _ _ _ _ (getLast?_shape4 _ _ _ _ _ hlastI))),
      hlcpI, hlcbI, skipWs_put _ hwall _ (by decide) _, by decide,
      by decide, by decide, by decide, ?_⟩
    · conv_lhs => rw [hdec, hts, hrdec, hr2d, hr3dec, ht4d]
      simp [List.append_assoc]
    · intro rest2 hcond
      have hform : (s.takeWhile isJsonWs ++ ('"' :: (spre ++ ('"' ::
          (r.takeWhile isJsonWs ++ (':' :: (consV ++ (r3.takeWhile isJsonWs ++
            (',' :: consI))))))))) ++ rest2 =
          s.takeWhile isJsonWs ++ ('"' :: (spre ++ ('"' :: (r.takeWhile
            isJsonWs ++ (':' :: (consV ++ (r3.takeWhile isJsonWs ++
              (',' :: (consI ++ rest2))))))))) := by
        simp [List.append_assoc]
      rw [hform]
      exact Parses.pobjCons _ _ k2 _ _ _ _ _ j ms
        (skipWs_put _ hwall _ (by decide) _) (hall _)
        (skipWs_put _ hrw _ (by decide) _)
        (hreV _ (Or.inr (by (conv_rhs => rw [hr3dec]); exact head_shape _ _ _ _)))
        (skipWs_put _ hr3w _ (by decide) _) (hreI rest2 hcond)

theorem parses_skipWs :
    ∀ (k : PK) (s : List Char) (o : POut) (r : List Char), Parses k s o r →
      ∀ s2, skipWs s2 = skipWs s → Parses k s2 o r := by
  intro k s o r h
  induction h with
  | pstr s t cs r h1 h2 =>
    intro s2 hw
    exact Parses.pstr s2 t cs r (hw.trans h1) h2
  | parrEmpty s t t2 h1 h2 =>
    intro s2 hw
    exact Parses.parrEmpty s2 t t2 (hw.trans h1) h2
  | parr s t r vs h1 h2 hsub ih =>
    intro s2 hw
    exact Parses.parr s2 t r vs (hw.trans h1) h2 hsub
  | pobjEmpty s t t2 h1 h2 =>
    intro s2 hw
    exact Parses.pobjEmpty s2 t t2 (hw.trans h1) h2
  | pobj s t r ms h1 h2 hsub ih =>
    intro s2 hw
    exact Parses.pobj s2 t r ms (hw.trans h1) h2 hsub
  | pnull s t h1 h2 =>
    intro s2 hw
    exact Parses.pnull s2 t (hw.trans h1) h2
  | ptrue s t h1 h2 =>
    intro s2 hw
    exact Parses.ptrue s2 t (hw.trans h1) h2
  | pfalse s t h1 h2 =>
    intro s2 hw
    exact Parses.pfalse s2 t (hw.trans h1) h2
  | pnum s c t r q h1 h2 h3 h4 h5 h6 h7 h8 =>
    intro s2 hw
    exact Parses.pnum s2 c t r q (hw.trans h1) h2 h3 h4 h5 h6 h7 h8
  | parrOne s r t j hv h2 ihv =>
    intro s2 hw
    exact Parses.parrOne s2 r t j (ihv s2 hw) h2
  | parrCons s r t rest j vs hv h2 hsub ihv ihsub =>
    intro s2 hw
    exact Parses.parrCons s2 r t rest j vs (ihv s2 hw) h2 hsub
  | pobjOne s t k2 r r2 r3 t4 j h1 h2 h3 hv h5 ihv =>
    intro s2 hw
    exact Parses.pobjOne s2 t k2 r r2 r3 t4 j (hw.trans h1) h2 h3 hv h5
  | pobjCons s t k2 r r2 r3 t4 rest j ms h1 h2 h3 hv h5 hsub ihv ihsub =>
    intro s2 hw
    exact Parses.pobjCons s2 t k2 r r2 r3 t4 rest j ms (hw.trans h1) h2 h3 hv
      h5 hsub

theorem skipWs_len (s : List Char) (c : Char) (t : List Char)
    (h : skipWs s = c :: t) : t.length + 1 ≤ s.length := by
  conv_rhs => rw [skipWs_decomp s, h]
  simp

theorem parses_len (k : PK) (s : List Char) (o : POut) (r : List Char)
    (h : Parses k s o r) : r.length + 1 ≤ s.length := by
  obtain ⟨cons, ch, tl, lc, hdec, hlast, -, -, -, -, -, -, -, -⟩ :=
    parses_strong k s o r h
  rw [hdec]
  cases cons with
  | nil => cases hlast
  | cons a l => simp

theorem parses_complete :
    ∀ (k : PK) (s : List Char) (o : POut) (r : List Char), Parses k s o r →
      ∀ n, pkBound k s ≤ n → PRun k n s o r := by
  intro k s o r h
  induction h with
  | pstr s t cs r h1 h2 =>
    intro n hn
    simp only [pkBound] at hn
    obtain ⟨m, rfl⟩ : ∃ m, n = m + 1 := ⟨n - 1, by omega⟩
    show parseVal (m + 1) s = some (Json.str cs, r)
    rw [parseVal, h1]
    simp [h2]
  | parrEmpty s t t2 h1 h2 =>
    intro n hn
    simp only [pkBound] at hn
    obtain ⟨m, rfl⟩ : ∃ m, n = m + 1 := ⟨n - 1, by omega⟩
    show parseVal (m + 1) s = some (Json.arr [], t2)
    rw [parseVal, h1]
    simp [h2]
  | parr s t r vs h1 h2 hsub ih =>
    intro n hn
    simp only [pkBound] at hn
    obtain ⟨m, rfl⟩ : ∃ m, n = m + 1 := ⟨n - 1, by omega⟩
    have hlt := skipWs_len s '[' t h1
    have hc : parseArrItems m t = some (vs, r) :=
      ih m (by simp only [pkBound]; omega)
    show parseVal (m + 1) s = some (Json.arr vs, r)
    rw [parseVal, h1]
    simp
    split
    · rename_i vs2 t2 heq
      rw [hc] at heq
      cases heq
      simp
    · rename_i heq
      rw [hc] at heq
      cases heq
  | pobjEmpty s t t2 h1 h2 =>
    intro n hn
    simp only [pkBound] at hn
    obtain ⟨m, rfl⟩ : ∃ m, n = m + 1 := ⟨n - 1, by omega⟩
    show parseVal (m + 1) s = some (Json.obj [], t2)
    rw [parseVal, h1]
    simp [h2]
  | pobj s t r ms h1 h2 hsub ih =>
    intro n hn
    simp only [pkBound] at hn
    obtain ⟨m, rfl⟩ : ∃ m, n = m + 1 := ⟨n - 1, by omega⟩
    have hlt := skipWs_len s '\x7b' t h1
    have hc : parseObjItems m t = some (ms, r) :=
      ih m (by simp only [pkBound]; omega)
    show parseVal (m + 1) s = some (Json.obj ms, r)
    rw [parseVal, h1]
    simp
    split
    · rename_i ms2 t2 heq
      rw [hc] at heq
      cases heq
      simp
    · rename_i heq
      rw [hc] at heq
      cases heq
  | pnull s t h1 h2 =>
    intro n hn
    simp only [pkBound] at hn
    obtain ⟨m, rfl⟩ : ∃ m, n = m + 1 := ⟨n - 1, by omega⟩
    show parseVal (m + 1) s = some (Json.null, t.drop 3)
    rw [parseVal, h1]
    simp [h2]
  | ptrue s t h1 h2 =>
    intro n hn
    simp only [pkBound] at hn
    obtain ⟨m, rfl⟩ : ∃ m, n = m + 1 := ⟨n - 1, by omega⟩
    show parseVal (m + 1) s = some (Json.bool true, t.drop 3)
    rw [parseVal, h1]
    simp [h2]
  | pfalse s t h1 h2 =>
    intro n hn
    simp only [pkBound] at hn
    obtain ⟨m, rfl⟩ : ∃ m, n = m + 1 := ⟨n - 1, by omega⟩
    show parseVal (m + 1) s = some (Json.bool false, t.drop 4)
    rw [parseVal, h1]
    simp [h2]
  | pnum s c t r q h1 h2 h3 h4 h5 h6 h7 h8 =>
    intro n hn
    simp only [pkBound] at hn
    obtain ⟨m, rfl⟩ : ∃ m, n = m + 1 := ⟨n - 1, by omega⟩
    show parseVal (m + 1) s = some (Json.num q, r)
    rw [parseVal, h1]
    simp [h2, h3, h4, h5, h6, h7, h8]
  | parrOne s r t j hv h2 ihv =>
    intro n hn
    simp only [pkBound] at hn
    obtain ⟨m, rfl⟩ : ∃ m, n = m + 1 := ⟨n - 1, by omega⟩
    have hv2 : parseVal m s = some (j, r) :=
      ihv m (by simp only [pkBound]; omega)
    show parseArrItems (m + 1) s = some ([j], t)
    rw [parseArrItems]
    simp [hv2, h2]
  | parrCons s r t rest j vs hv h2 hsub ihv ihsub =>
    intro n hn
    simp only [pkBound] at hn
    obtain ⟨m, rfl⟩ : ∃ m, n = m + 1 := ⟨n - 1, by omega⟩
    have hl1 := parses_len _ _ _ _ hv
    have hl2 := skipWs_len r ',' t h2
    have hv2 : parseVal m s = some (j, r) :=
      ihv m (by simp only [pkBound]; omega)
    have hs2 : parseArrItems m t = some (vs, rest) :=
      ihsub m (by simp only [pkBound]; omega)
    show parseArrItems (m + 1) s = some (j :: vs, rest)
    rw [parseArrItems]
    simp [hv2, h2, hs2]
  | pobjOne s t k2 r r2 r3 t4 j h1 h2 h3 hv h5 ihv =>
    intro n hn
    simp only [pkBound] at hn
    obtain ⟨m, rfl⟩ : ∃ m, n = m + 1 := ⟨n - 1, by omega⟩
    have hl1 := skipWs_len s '"' t h1
    obtain ⟨spre, hts, -⟩ := parseString_strong t.length t le_rfl k2 r h2
    have hl2 : r.length + 1 ≤ t.length := by
      rw [hts]
      simp
    have hl3 := skipWs_len r ':' r2 h3
    have hv2 : parseVal m r2 = some (j, r3) :=
      ihv m (by simp only [pkBound]; omega)
    show parseObjItems (m + 1) s = some ([(k2, j)], t4)
    rw [parseObjItems, h1]
    simp [h2, h3, hv2, h5]
  | pobjCons s t k2 r r2 r3 t4 rest j ms h1 h2 h3 hv h5 hsub ihv ihsub =>
    intro n hn
    simp only [pkBound] at hn
    obtain ⟨m, rfl⟩ : ∃ m, n = m + 1 := ⟨n - 1, by omega⟩
    have hl1 := skipWs_len s '"' t h1
    obtain ⟨spre, hts, -⟩ := parseString_strong t.length t le_rfl k2 r h2
    have hl2 : r.length + 1 ≤ t.length := by
      rw [hts]
      simp
    have hl3 := skipWs_len r ':' r2 h3
    have hl4 := parses_len _ _ _ _ hv
    have hl5 := skipWs_len r3 ',' t4 h5
    have hv2 : parseVal m r2 = some (j, r3) :=
      ihv m (by simp only [pkBound]; omega)
    have hs2 : parseObjItems m t4 = some (ms, rest) :=
      ihsub m (by simp only [pkBound]; omega)
    show parseObjItems (m + 1) s = some ((k2, j) :: ms, rest)
    rw [parseObjItems, h1]
    simp [h2, h3, hv2, h5, hs2]

theorem json_loads_run (s : List Char) (v : Json) (h : json_loads s = some v) :
    ∃ r, parseVal (2 * s.length + 2) s = some (v, r) ∧ skipWs r = [] := by
  unfold json_loads at h
  split at h
  · rename_i v2 rest heq
    split at h
    · rename_i hws
      cases h
      exact ⟨rest, heq, hws⟩
    · cases h
  · cases h

theorem parses_val_loads (s : List Char) (v : Json) (r : List Char)
    (h : Parses PK.val s (POut.v v) r) (hr : skipWs r = []) :
    json_loads s = some v := by
  have hp : parseVal (2 * s.length + 2) s = some (v, r) :=
    parses_complete PK.val s (POut.v v) r h (2 * s.length + 2) le_rfl
  unfold json_loads
  rw [hp]
  simp [hr]

theorem json_loads_pystrip (s : List Char) (v : Json)
    (h : json_loads s = some v) : json_loads (pystrip s) = some v := by
  obtain ⟨r, hp, hws⟩ := json_loads_run s v h
  have hder : Parses PK.val s (POut.v v) r := (parseVal_sound _).1 s v r hp
  obtain ⟨cons, ch, tl, lc, hdec, hlast, hlcp, hlcb, hsk, hchp, hchb, -, -,
    hre⟩ := parses_strong PK.val s (POut.v v) r hder
  have hrallp : ∀ c ∈ r, isPyWs c = true :=
    fun c hc => isJsonWs_isPyWs c (dropWhile_nil_all isJsonWs r hws c hc)
  have hconsdec : cons = cons.takeWhile isJsonWs ++ (ch :: tl) := by
    conv_lhs => rw [skipWs_decomp cons, hsk]
  have hconsws : ∀ c ∈ cons.takeWhile isJsonWs, isPyWs c = true :=
    fun c hc => isJsonWs_isPyWs c (List.mem_takeWhile_imp hc)
  have hlead : s.dropWhile isPyWs = ch :: (tl ++ r) := by
    conv_lhs => rw [hdec, hconsdec]
    rw [List.append_assoc, dropWhile_append_all isPyWs _ _ hconsws,
      List.cons_append, List.dropWhile_cons_of_neg (by
        rw [hchp]; exact Bool.false_ne_true)]
  have hl2 : (ch :: tl).getLast? = some lc := by
    rw [← List.getLast?_append_of_ne_nil (cons.takeWhile isJsonWs)
      (by simp), ← hconsdec, hlast]
  obtain ⟨pre2, hpre2⟩ := getLast?_concat_decomp (ch :: tl) lc hl2
  have htrail : dropTrailing isPyWs ((ch :: tl) ++ r) = ch :: tl := by
    rw [dropTrailing_append_all isPyWs _ _ hrallp, hpre2,
      dropTrailing_last_not isPyWs pre2 lc hlcp]
  have hps : pystrip s = ch :: tl := by
    rw [pystrip, hlead, ← List.cons_append, htrail]
  have hder2 : Parses PK.val (ch :: tl) (POut.v v) [] := by
    have h0 := hre [] (Or.inl rfl)
    rw [List.append_nil] at h0
    exact parses_skipWs PK.val cons (POut.v v) [] h0 (ch :: tl) (by
      rw [hsk, skipWs, List.dropWhile_cons_of_neg (by
        rw [not_pyws_not_jws ch hchp]; exact Bool.false_ne_true)])
  rw [hps]
  exact parses_val_loads (ch :: tl) v [] hder2 rfl

theorem parseNumber_btick (t : List Char) : parseNumber (btick :: t) = none := by
  have htok : (btick :: t).takeWhile isNumChar = [] :=
    List.takeWhile_cons_of_neg (by decide)
  rw [parseNumber, htok]
  rfl

theorem parseVal_btick (n : Nat) (s t : List Char) (h : skipWs s = btick :: t) :
    parseVal n s = none := by
  cases n with
  | zero => rfl
  | succ m =>
    rw [parseVal, h]
    simp [show btick ≠ '"' by decide, show btick ≠ '[' by decide,
      show btick ≠ '\x7b' by decide, show btick ≠ 'n' by decide,
      show btick ≠ 't' by decide, show btick ≠ 'f' by decide,
      parseNumber_btick]

theorem json_loads_btick (s t : List Char) (h : skipWs s = btick :: t) :
    json_loads s = none := by
  unfold json_loads
  rw [parseVal_btick (2 * s.length + 2) s t h]

theorem isPrefixOf_append_self :
    ∀ (pat t : List Char), pat.isPrefixOf (pat ++ t) = true := by
  intro pat
  induction pat with
  | nil =>
    intro t
    rw [List.nil_append]
    cases t <;> rfl
  | cons a as ih =>
    intro t
    rw [List.cons_append]
    simp only [List.isPrefixOf, beq_self_eq_true, Bool.true_and]
    exact ih t

theorem replaceFirst_pref (pat rep t : List Char) (h : pat ≠ []) :
    replaceFirst pat rep (pat ++ t) = rep ++ t := by
  cases pat with
  | nil => exact absurd rfl h
  | cons a as =>
    have hp : (a :: as).isPrefixOf (a :: (as ++ t)) = true := by
      rw [← List.cons_append]
      exact isPrefixOf_append_self (a :: as) t
    rw [List.cons_append, replaceFirst, if_pos hp]
    congr 1
    rw [List.length_cons, List.drop_succ_cons, List.drop_left]

theorem pystrip_eq_self (m : List Char) (c0 cl : Char)
    (h0 : isPyWs c0 = false) (hl : isPyWs cl = false) :
    pystrip (c0 :: (m ++ [cl])) = c0 :: (m ++ [cl]) := by
  rw [pystrip, List.dropWhile_cons_of_neg (by rw [h0]; exact Bool.false_ne_true)]
  rw [show c0 :: (m ++ [cl]) = (c0 :: m) ++ [cl] from rfl,
    dropTrailing_last_not isPyWs (c0 :: m) cl hl]

theorem fallbackClean_fence (bo bc mid : List Char)
    (hbo : bo ≠ []) (hbc : bc ≠ [])
    (hboAll : ∀ c ∈ bo, c = btick) (hbcAll : ∀ c ∈ bc, c = btick)
    (mlc : Char) (hml : mid.getLast? = some mlc) (hmlb : mlc ≠ btick) :
    fallbackClean (bo ++ ("json").data ++ mid ++ bc) = pystrip mid := by
  obtain ⟨midpre, hmidd⟩ := getLast?_concat_decomp mid mlc hml
  cases bo with
  | nil => exact absurd rfl hbo
  | cons b0 bo2 =>
  have hb0 := hboAll b0 (List.mem_cons_self b0 bo2)
  subst hb0
  have hbcd : bc = bc.dropLast ++ [btick] := by
    conv_lhs => rw [← List.dropLast_append_getLast hbc]
    rw [hbcAll (bc.getLast hbc) (List.getLast_mem hbc)]
  have h1 : pystrip ((btick :: bo2) ++ ("json").data ++ mid ++ bc) =
      (btick :: bo2) ++ ("json").data ++ mid ++ bc := by
    have hform : (btick :: bo2) ++ ("json").data ++ mid ++ bc =
        btick :: ((bo2 ++ ("json").data ++ mid ++ bc.dropLast) ++ [btick]) := by
      conv_lhs => rw [hbcd]
      simp [List.append_assoc]
    rw [hform, pystrip_eq_self _ btick btick (by decide) (by decide)]
  rw [fallbackClean, h1]
  have hform3 : ("json").data ++ mid ++ bc =
      'j' :: (("son").data ++ mid ++ bc) := rfl
  have h2 : stripBoth (fun c => c = btick)
      ((btick :: bo2) ++ ("json").data ++ mid ++ bc) =
      ("json").data ++ mid := by
    rw [stripBoth]
    have hform2 : (btick :: bo2) ++ ("json").data ++ mid ++ bc =
        (btick :: bo2) ++ (("json").data ++ mid ++ bc) := by
      simp [List.append_assoc]
    rw [hform2,
      dropWhile_append_all _ _ _ (fun c hc => decide_eq_true (hboAll c hc)),
      hform3, List.dropWhile_cons_of_neg (by decide), ← hform3,
      dropTrailing_append_all _ _ _ (fun c hc => decide_eq_true (hbcAll c hc))]
    conv_lhs => rw [hmidd]
    rw [← List.append_assoc, dropTrailing_last_not _ _ _ (decide_eq_false hmlb),
      List.append_assoc, ← hmidd]
  rw [h2, replaceFirst_pref _ _ _ (by decide), List.nil_append]

/-- C1: for every payload wrapped in code-fence markup with a leading
"json" tag — nonempty runs of backtick markers at start and end, the word
"json" immediately after the opening marker — around a JSON document, the
response-recovery step of analyze_logs (direct json.loads, then the single
fallback clean and re-parse) produces the same parsed result as running it
on the unwrapped JSON document. -/
theorem wrapped_payload_parses_like_unwrapped
    (bo bc mid : List Char) (v : Json)
    (hbo : bo ≠ []) (hbc : bc ≠ [])
    (hboAll : ∀ c ∈ bo, c = btick) (hbcAll : ∀ c ∈ bc, c = btick)
    (hmid : json_loads mid = some v) :
    recoverJson (bo ++ ("json").data ++ mid ++ bc) = recoverJson mid ∧
    recoverJson mid = some v := by
  have hmidr : recoverJson mid = some v := by
    unfold recoverJson
    rw [hmid]
  refine ⟨?_, hmidr⟩
  have hml : ∃ mlc, mid.getLast? = some mlc ∧ mlc ≠ btick := by
    obtain ⟨r, hp, hws⟩ := json_loads_run mid v hmid
    have hder := (parseVal_sound _).1 mid v r hp
    obtain ⟨cons, ch, tl, lc, hdec, hlast, -, hlcb, -, -, -, -, -, -⟩ :=
      parses_strong PK.val mid (POut.v v) r hder
    by_cases hr : r = []
    · subst hr
      refine ⟨lc, ?_, hlcb⟩
      rw [hdec, List.append_nil]
      exact hlast
    · refine ⟨r.getLast hr, ?_, ?_⟩
      · rw [hdec, List.getLast?_append_of_ne_nil _ hr]
        exact List.getLast?_eq_getLast r hr
      · exact isJsonWs_not_btick _
          (dropWhile_nil_all isJsonWs r hws _ (List.getLast_mem hr))
  obtain ⟨mlc, hml2, hmlb⟩ := hml
  have hWnone : json_loads (bo ++ ("json").data ++ mid ++ bc) = none := by
    cases bo with
    | nil => exact absurd rfl hbo
    | cons b0 bo2 =>
      have hb0 := hboAll b0 (List.mem_cons_self b0 bo2)
      subst hb0
      refine json_loads_btick _ (bo2 ++ ("json").data ++ mid ++ bc) ?_
      rw [show (btick :: bo2) ++ ("json").data ++ mid ++ bc =
        btick :: (bo2 ++ ("json").data ++ mid ++ bc) from by
          simp [List.append_assoc]]
      rw [skipWs, List.dropWhile_cons_of_neg (by decide)]
  simp only [recoverJson, hWnone, hmid,
    fallbackClean_fence bo bc mid hbo hbc hboAll hbcAll mlc hml2 hmlb]
  exact json_loads_pystrip mid v hmid

/-- Witness for C1: a concrete fenced document, three backticks on each
side and a "json" tag, recovers to the same object as the bare document. -/
theorem wrapped_payload_parses_like_unwrapped_witness :
    recoverJson ([btick, btick, btick] ++ ("json").data ++
        ("\n\x7b\"a\": 1\x7d\n").data ++ [btick, btick, btick]) =
      recoverJson (("\n\x7b\"a\": 1\x7d\n").data) ∧
    recoverJson (("\n\x7b\"a\": 1\x7d\n").data) =
      some (Json.obj [((("a").data), Json.num (mkRat 1 1))]) :=
  wrapped_payload_parses_like_unwrapped [btick, btick, btick]
    [btick, btick, btick] (("\n\x7b\"a\": 1\x7d\n").data)
    (Json.obj [((("a").data), Json.num (mkRat 1 1))])
    (by decide) (by decide) (by decide) (by decide) rfl
